import Mathlib

/-!
# A shallow embedding of the CHIP-8 interpreter of `go-chip8-emulator`

The interpreter state of `emulator/chip8.go` is a record of fixed-size arrays and machine
integers.  Arrays are embedded as total functions `Nat → Nat` together with an explicit bounds
check at every indexing expression: an index outside the declared array length is the Go run-time
panic `index out of range`, embedded as `Fault.indexOutOfRange`.  `log.Fatal` is embedded as
`Fault.fatal`.  Machine integers are natural numbers, reduced modulo `2^8` / `2^16` wherever the
Go operation can wrap.

One identifier of the source has no declaration.  The method `execute` declares the local
`hex := op & 0xF000` (`chip8.go`, line 106) and never uses it, and its statement `switch hexa`
(line 113) names a variable `hexa` that is declared nowhere in the sources: as given, the method
does not compile.  The embedding keeps both facts apart.  The switch itself is `dispatch`, which
takes the value of `hexa` as a parameter, and the missing declaration is the definition `hexa`,
modelled from the specification (the top nibble of the opcode selects the instruction family).
`execute`, `step` and every statement about them are statements about the source under that
reading of `hexa`; the statements about the handlers, about `newChip8`, `decrementTimer` and
the run loop do not depend on it.
-/

namespace Emulator

/-! ## Constants (`chip8.go`, `emulator.go`) -/

abbrev Chip8DisplayW : Nat := 64
abbrev Chip8DisplayH : Nat := 32
abbrev CharacterSpritesOffset : Nat := 0x100
abbrev CharacterSpriteBytes : Nat := 5
abbrev ProgrammOffset : Nat := 0x200
abbrev Chip8Frequency : Nat := 60 * 8
abbrev VBlankFrequency : Nat := 60

/-- The abnormal ways in which an interpreter operation can end. -/
inductive Fault where
  /-- Go run-time panic: index (or slice bound) out of range. -/
  | indexOutOfRange
  /-- The call `log.Fatal(msg)`: the message is printed and the process exits. -/
  | fatal (msg : String)
  deriving DecidableEq, Repr

/-- The interpreter state: `type Chip8 struct`.  The array lengths are
`memory [0x1000]`, `stack [0x10]`, `v [0x10]`, `keys [0x10]`, `dsp [0x800]`. -/
structure Chip8 where
  memory : Nat → Nat
  stack : Nat → Nat
  v : Nat → Nat
  keys : Nat → Nat
  dsp : Nat → Nat
  i : Nat
  pc : Nat
  sp : Nat
  delayTimer : Nat
  soundTtimer : Nat

/-- Every component holds a value of its Go type (`uint8` cells, `uint16` addresses). -/
structure WF (c : Chip8) : Prop where
  memory_lt : ∀ a, c.memory a < 256
  stack_lt : ∀ a, c.stack a < 65536
  v_lt : ∀ a, c.v a < 256
  keys_lt : ∀ a, c.keys a < 256
  dsp_lt : ∀ a, c.dsp a < 256
  i_lt : c.i < 65536
  pc_lt : c.pc < 65536
  sp_lt : c.sp < 256
  delayTimer_lt : c.delayTimer < 256
  soundTtimer_lt : c.soundTtimer < 256

/-- Array store `a[k] = val` on the function view of an array. -/
def setAt (a : Nat → Nat) (k val : Nat) : Nat → Nat :=
  fun j => if j = k then val else a j

/-! ## Bounds-checked array accesses -/

/-- The read `c.v[x]`. -/
def readV (c : Chip8) (x : Nat) : Except Fault Nat :=
  if x < 0x10 then .ok (c.v x) else .error .indexOutOfRange

/-- The store `c.v[x] = val`. -/
def writeV (c : Chip8) (x val : Nat) : Except Fault Chip8 :=
  if x < 0x10 then .ok { c with v := setAt c.v x val } else .error .indexOutOfRange

/-- The read `c.memory[a]`. -/
def readMem (c : Chip8) (a : Nat) : Except Fault Nat :=
  if a < 0x1000 then .ok (c.memory a) else .error .indexOutOfRange

/-- The store `c.memory[a] = val`. -/
def writeMem (c : Chip8) (a val : Nat) : Except Fault Chip8 :=
  if a < 0x1000 then .ok { c with memory := setAt c.memory a val } else .error .indexOutOfRange

/-- The read `c.keys[k]`. -/
def readKey (c : Chip8) (k : Nat) : Except Fault Nat :=
  if k < 0x10 then .ok (c.keys k) else .error .indexOutOfRange

/-- The read `c.stack[k]`. -/
def readStack (c : Chip8) (k : Nat) : Except Fault Nat :=
  if k < 0x10 then .ok (c.stack k) else .error .indexOutOfRange

/-- The store `c.stack[k] = val`. -/
def writeStack (c : Chip8) (k val : Nat) : Except Fault Chip8 :=
  if k < 0x10 then .ok { c with stack := setAt c.stack k val } else .error .indexOutOfRange

/-! ## `chip8.go` -/

/-- The table `characterSprites`: sixteen glyphs of five bytes. -/
def characterSprites : List Nat :=
  [0xF0, 0x90, 0x90, 0x90, 0xF0,
   0x20, 0x60, 0x20, 0x20, 0x70,
   0xF0, 0x10, 0xF0, 0x80, 0xF0,
   0xF0, 0x10, 0xF0, 0x10, 0xF0,
   0x90, 0x90, 0xF0, 0x10, 0x10,
   0xF0, 0x80, 0xF0, 0x10, 0xF0,
   0xF0, 0x80, 0xF0, 0x90, 0xF0,
   0xF0, 0x10, 0x20, 0x40, 0x40,
   0xF0, 0x90, 0xF0, 0x90, 0xF0,
   0xF0, 0x90, 0xF0, 0x10, 0xF0,
   0xF0, 0x90, 0xF0, 0x90, 0x90,
   0xE0, 0x90, 0xE0, 0x90, 0xE0,
   0xF0, 0x80, 0x80, 0x80, 0xF0,
   0xE0, 0x90, 0x90, 0x90, 0xE0,
   0xF0, 0x80, 0xF0, 0x80, 0xF0,
   0xF0, 0x80, 0xF0, 0x80, 0x80]

/-- The builtin `copy(dst[off:], src)` for an array `dst` of length `cap` (with `off ≤ cap`):
`min (cap - off) (len src)` elements are copied. -/
def copyBytes (dst : Nat → Nat) (off cap : Nat) (src : List Nat) : Nat → Nat :=
  fun a => if off ≤ a ∧ a < off + min (cap - off) src.length then src.getD (a - off) 0 else dst a

/-- The zero value `&Chip8{}`. -/
def zeroChip8 : Chip8 :=
  { memory := fun _ => 0, stack := fun _ => 0, v := fun _ => 0, keys := fun _ => 0,
    dsp := fun _ => 0, i := 0, pc := 0, sp := 0, delayTimer := 0, soundTtimer := 0 }

/-- The constructor `newChip8(b)`. -/
def newChip8 (b : List Nat) : Chip8 :=
  let c := { zeroChip8 with pc := ProgrammOffset, sp := 0x0f }
  let c := { c with memory := copyBytes c.memory ProgrammOffset 0x1000 b }
  { c with memory := copyBytes c.memory CharacterSpritesOffset 0x1000 characterSprites }

/-- The method `decrementTimer`; `--` on a `uint8` is the decrement modulo 256. -/
def decrementTimer (c : Chip8) : Chip8 :=
  let c := if c.delayTimer > 0 then { c with delayTimer := (c.delayTimer + 256 - 1) % 256 } else c
  if c.soundTtimer > 0 then { c with soundTtimer := (c.soundTtimer + 256 - 1) % 256 } else c

/-- The method `feetch`: the opcode read big-endian at `pc`, and the state with `pc += 2`. -/
def feetch (c : Chip8) : Except Fault (Nat × Chip8) := do
  let hi ← readMem c c.pc
  let lo ← readMem c ((c.pc + 1) % 65536)
  .ok ((hi <<< 8) ||| lo, { c with pc := (c.pc + 2) % 65536 })

/-- The method `updateCarryFlag`. -/
def updateCarryFlag (c : Chip8) (b : Bool) : Chip8 :=
  if b then { c with v := setAt c.v 0xf 1 } else { c with v := setAt c.v 0xf 0 }

/-- The method `pushStak`: `c.stack[c.sp] = v; c.sp--`. -/
def pushStak (c : Chip8) (val : Nat) : Except Fault Chip8 := do
  let c ← writeStack c c.sp val
  .ok { c with sp := (c.sp + 256 - 1) % 256 }

/-- The method `popStack`: `c.sp++; return c.stack[c.sp]`. -/
def popStack (c : Chip8) : Except Fault (Nat × Chip8) := do
  let c := { c with sp := (c.sp + 1) % 256 }
  let r ← readStack c c.sp
  .ok (r, c)

/-- The loop of `pressedAnyKey` from index `k` on, with `fuel` keys left to inspect. -/
def firstPressed (keys : Nat → Nat) : Nat → Nat → Nat
  | 0, _ => 0xff
  | fuel + 1, k => if keys k = 1 then k else firstPressed keys fuel (k + 1)

/-- The method `pressedAnyKey`: the first index whose key is `1`, else `0xff`. -/
def pressedAnyKey (c : Chip8) : Nat :=
  firstPressed c.keys 0x10 0

/-! ## `opcodes.go` -/

/-- Opcode `00E0`: clears the screen. -/
def clearDisplay (c : Chip8) : Chip8 :=
  { c with dsp := fun k => if k < 0x800 then 0 else c.dsp k }

/-- Opcode `00EE`: returns from a subroutine. -/
def returnFromSubroutine (c : Chip8) : Except Fault Chip8 := do
  let (r, c) ← popStack c
  .ok { c with pc := r }

/-- Opcode `1nnn`: jumps to address `nnn`. -/
def jumpTo (c : Chip8) (nnn : Nat) : Chip8 :=
  { c with pc := nnn }

/-- Opcode `2nnn`: calls the subroutine at `nnn`. -/
def callSubroutine (c : Chip8) (nnn : Nat) : Except Fault Chip8 := do
  let c ← pushStak c c.pc
  .ok { c with pc := nnn }

/-- Opcode `3xnn`: skips the next instruction if `Vx = nn`. -/
def seByte (c : Chip8) (x nn : Nat) : Except Fault Chip8 := do
  let vx ← readV c x
  if vx = nn then .ok { c with pc := (c.pc + 2) % 65536 } else .ok c

/-- Opcode `4xnn`: skips the next instruction if `Vx ≠ nn`. -/
def sneByte (c : Chip8) (x nn : Nat) : Except Fault Chip8 := do
  let vx ← readV c x
  if vx ≠ nn then .ok { c with pc := (c.pc + 2) % 65536 } else .ok c

/-- Opcode `5xy0`: skips the next instruction if `Vx = Vy`. -/
def seRegister (c : Chip8) (x y : Nat) : Except Fault Chip8 := do
  let vx ← readV c x
  let vy ← readV c y
  if vx = vy then .ok { c with pc := (c.pc + 2) % 65536 } else .ok c

/-- Opcode `6xnn`: sets `Vx` to `nn`. -/
def loadByte (c : Chip8) (x nn : Nat) : Except Fault Chip8 :=
  writeV c x nn

/-- Opcode `7xnn`: adds `nn` to `Vx` (the carry flag is not changed). -/
def addByte (c : Chip8) (x nn : Nat) : Except Fault Chip8 := do
  let vx ← readV c x
  writeV c x ((vx + nn) % 256)

/-- Opcode `8xy0`: sets `Vx` to `Vy`. -/
def loadReg (c : Chip8) (x y : Nat) : Except Fault Chip8 := do
  let vy ← readV c y
  writeV c x vy

/-- Opcode `8xy1`: sets `Vx` to `Vx | Vy`. -/
def orReg (c : Chip8) (x y : Nat) : Except Fault Chip8 := do
  let vx ← readV c x
  let vy ← readV c y
  writeV c x (vx ||| vy)

/-- Opcode `8xy2`: sets `Vx` to `Vx & Vy`. -/
def andReg (c : Chip8) (x y : Nat) : Except Fault Chip8 := do
  let vx ← readV c x
  let vy ← readV c y
  writeV c x (vx &&& vy)

/-- Opcode `8xy3`: sets `Vx` to `Vx ^ Vy`. -/
def xorReg (c : Chip8) (x y : Nat) : Except Fault Chip8 := do
  let vx ← readV c x
  let vy ← readV c y
  writeV c x (vx ^^^ vy)

/-- Opcode `8xy4`: adds `Vy` to `Vx`; the carry is computed first, stored in `VF` last. -/
def addReg (c : Chip8) (x y : Nat) : Except Fault Chip8 := do
  let vx ← readV c x
  let vy ← readV c y
  let carried := decide (vx + vy > 0xff)
  let c ← writeV c x ((vx + vy) % 256)
  .ok (updateCarryFlag c carried)

/-- Opcode `8xy5`: subtracts `Vy` from `Vx`; `VF` is set last, to "no borrow". -/
def subReg (c : Chip8) (x y : Nat) : Except Fault Chip8 := do
  let vx ← readV c x
  let vy ← readV c y
  let borrowed := decide (vx < vy)
  let c ← writeV c x ((vx + 256 - vy) % 256)
  .ok (updateCarryFlag c (!borrowed))

/-- Opcode `8xy6`: `VF` is set first, from the low bit of `Vx`; then `Vx` is re-read and shifted. -/
def shiftRight (c : Chip8) (x : Nat) : Except Fault Chip8 := do
  let vx ← readV c x
  let c := updateCarryFlag c (decide (vx &&& 0x01 = 1))
  let vx ← readV c x
  writeV c x (vx >>> 1)

/-- Opcode `8xy7`: sets `Vx` to `Vy - Vx`; `VF` is set last, to "no borrow". -/
def subnReg (c : Chip8) (x y : Nat) : Except Fault Chip8 := do
  let vx ← readV c x
  let vy ← readV c y
  let borrowed := decide (vy < vx)
  let c ← writeV c x ((vy + 256 - vx) % 256)
  .ok (updateCarryFlag c (!borrowed))

/-- Opcode `8xyE`: `VF` is set first, from the high bit of `Vx`; then `Vx` is re-read and shifted. -/
def shiftLeft (c : Chip8) (x : Nat) : Except Fault Chip8 := do
  let vx ← readV c x
  let c := updateCarryFlag c (decide (vx >>> 7 = 1))
  let vx ← readV c x
  writeV c x ((vx <<< 1) % 256)

/-- Opcode `9xy0`: skips the next instruction if `Vx ≠ Vy`. -/
def sneReg (c : Chip8) (x y : Nat) : Except Fault Chip8 := do
  let vx ← readV c x
  let vy ← readV c y
  if vx ≠ vy then .ok { c with pc := (c.pc + 2) % 65536 } else .ok c

/-- Opcode `Annn`: sets `I` to `nnn`. -/
def loadI (c : Chip8) (nnn : Nat) : Chip8 :=
  { c with i := nnn }

/-- Opcode `Bnnn`: jumps to `nnn + V0`. -/
def jumpV0 (c : Chip8) (nnn : Nat) : Except Fault Chip8 := do
  let v0 ← readV c 0
  .ok { c with pc := (v0 + nnn) % 65536 }

/-- Opcode `Cxnn`: `Vx` is `rnd & nn`, where `rnd` is the value drawn by `rand.Uint32()`. -/
def random (rnd : Nat) (c : Chip8) (x nn : Nat) : Except Fault Chip8 :=
  writeV c x ((rnd &&& nn) % 256)

/-- The read `c.dsp[k]`. -/
def readDsp (c : Chip8) (k : Nat) : Except Fault Nat :=
  if k < 0x800 then .ok (c.dsp k) else .error .indexOutOfRange

/-- The store `c.dsp[k] = val`. -/
def writeDsp (c : Chip8) (k val : Nat) : Except Fault Chip8 :=
  if k < 0x800 then .ok { c with dsp := setAt c.dsp k val } else .error .indexOutOfRange

/-- The body of the inner loop of `draw` for sprite row `iy` and sprite column `ix`.  The slice
`sm := c.memory[c.i:]` is given by its offset `base` and its length `len`; `st` is the state
together with the local `flipped`. -/
def drawPixel (base len x y iy ix : Nat) (st : Chip8 × Bool) : Except Fault (Chip8 × Bool) :=
  let tx := x + ix
  let ty := y + iy
  if tx ≥ Chip8DisplayW ∨ ty ≥ Chip8DisplayH then .ok st
  else do
    let s ← readDsp st.1 (ty * Chip8DisplayW + tx)
    let b ← (if iy < len then .ok (st.1.memory (base + iy)) else .error .indexOutOfRange)
    let d := (b >>> (7 - ix)) &&& 0x01
    let c ← writeDsp st.1 (ty * Chip8DisplayW + tx) (s ^^^ d)
    .ok (c, if s = 1 ∧ d = 1 then true else st.2)

/-- The inner loop `for ix := uint8(0); ix < 8; ix++` of `draw`, as its first `k` iterations. -/
def drawRow (base len x y iy : Nat) : Nat → Chip8 × Bool → Except Fault (Chip8 × Bool)
  | 0, st => .ok st
  | k + 1, st => do
    let st ← drawRow base len x y iy k st
    drawPixel base len x y iy k st

/-- The outer loop `for iy := uint8(0); iy < n; iy++` of `draw`, as its first `k` iterations. -/
def drawRows (base len x y : Nat) : Nat → Chip8 × Bool → Except Fault (Chip8 × Bool)
  | 0, st => .ok st
  | k + 1, st => do
    let st ← drawRows base len x y k st
    drawRow base len x y k 8 st

/-- Opcode `Dxyn`: draws the `n`-row sprite at `memory[I:]` at the coordinate `(Vx, Vy)`. -/
def draw (c : Chip8) (x y n : Nat) : Except Fault Chip8 := do
  let vx ← readV c x
  let vy ← readV c y
  if c.i > 0x1000 then .error .indexOutOfRange
  else do
    let st ← drawRows c.i (0x1000 - c.i) vx vy n (c, false)
    .ok (updateCarryFlag st.1 st.2)

/-- Opcode `Ex9E`: skips the next instruction if the key stored in `Vx` is pressed. -/
def skipKp (c : Chip8) (x : Nat) : Except Fault Chip8 := do
  let vx ← readV c x
  let k ← readKey c vx
  if k = 1 then .ok { c with pc := (c.pc + 2) % 65536 } else .ok c

/-- Opcode `ExA1`: skips the next instruction if the key stored in `Vx` is not pressed. -/
def skipNkp (c : Chip8) (x : Nat) : Except Fault Chip8 := do
  let vx ← readV c x
  let k ← readKey c vx
  if k = 0 then .ok { c with pc := (c.pc + 2) % 65536 } else .ok c

/-- Opcode `Fx07`: sets `Vx` to the value of the delay timer. -/
def loadRegDelay (c : Chip8) (x : Nat) : Except Fault Chip8 :=
  writeV c x c.delayTimer

/-- Opcode `Fx0A`: a key press is awaited (by rewinding `pc`), and then stored in `Vx`. -/
def loadRegKey (c : Chip8) (x : Nat) : Except Fault Chip8 :=
  if pressedAnyKey c = 0xff then .ok { c with pc := (c.pc + 65536 - 2) % 65536 }
  else writeV c x (pressedAnyKey c)

/-- Opcode `Fx15`: sets the delay timer to `Vx`. -/
def loadDt (c : Chip8) (x : Nat) : Except Fault Chip8 := do
  let vx ← readV c x
  .ok { c with delayTimer := vx }

/-- Opcode `Fx18`: sets the sound timer to `Vx`. -/
def loadSt (c : Chip8) (x : Nat) : Except Fault Chip8 := do
  let vx ← readV c x
  .ok { c with soundTtimer := vx }

/-- Opcode `Fx1E`: adds `Vx` to `I`. -/
def addI (c : Chip8) (x : Nat) : Except Fault Chip8 := do
  let vx ← readV c x
  .ok { c with i := (c.i + vx) % 65536 }

/-- Opcode `Fx29`: sets `I` to the location of the glyph for the character in `Vx`. -/
def loadSprite (c : Chip8) (x : Nat) : Except Fault Chip8 := do
  let vx ← readV c x
  .ok { c with i := (CharacterSpritesOffset + vx * CharacterSpriteBytes) % 65536 }

/-- Opcode `Fx33`: stores the three decimal digits of `Vx` at `I`, `I+1`, `I+2`. -/
def loadBCD (c : Chip8) (x : Nat) : Except Fault Chip8 := do
  let vx ← readV c x
  let c ← writeMem c ((c.i + 0) % 65536) (vx / 100)
  let vx ← readV c x
  let c ← writeMem c ((c.i + 1) % 65536) ((vx % 100) / 10)
  let vx ← readV c x
  writeMem c ((c.i + 2) % 65536) (vx % 10)

/-- Opcode `Fx55`: `copy(c.memory[c.i:], c.v[:x+1])`. -/
def loadRegMem (c : Chip8) (x : Nat) : Except Fault Chip8 :=
  let k := (x + 1) % 256
  if c.i ≤ 0x1000 ∧ k ≤ 0x10 then
    let cnt := min (0x1000 - c.i) k
    .ok { c with memory := fun a => if c.i ≤ a ∧ a < c.i + cnt then c.v (a - c.i) else c.memory a }
  else .error .indexOutOfRange

/-- Opcode `Fx65`: `copy(c.v[:x+1], c.memory[c.i:])`. -/
def loadMemReg (c : Chip8) (x : Nat) : Except Fault Chip8 :=
  let k := (x + 1) % 256
  if k ≤ 0x10 ∧ c.i ≤ 0x1000 then
    let cnt := min k (0x1000 - c.i)
    .ok { c with v := fun j => if j < cnt then c.memory (c.i + j) else c.v j }
  else .error .indexOutOfRange

/-! ## Decode and execute (`chip8.go`) -/

/-- The statement `switch hexa { ... }` of `execute`, with its nested switches, as a function of
the opcode, of the locals `nnn`, `nn`, `x`, `y`, `n` decoded from it, and of the value of the
switch variable `hexa`.  The source declares no `hexa`, so its value is a parameter here.  A
switch with no matching case and no `default` falls through: the state is returned as it is. -/
def dispatch (rnd : Nat) (c : Chip8) (op hexa nnn nn x y n : Nat) : Except Fault Chip8 :=
  if hexa = 0x0000 then
    if op = 0x00E0 then .ok (clearDisplay c)
    else if op = 0x00EE then returnFromSubroutine c
    else .error (.fatal "Not implemented 0NNN")
  else if hexa = 0x1000 then .ok (jumpTo c nnn)
  else if hexa = 0x2000 then callSubroutine c nnn
  else if hexa = 0x3000 then seByte c x nn
  else if hexa = 0x4000 then sneByte c x nn
  else if hexa = 0x5000 then seRegister c x y
  else if hexa = 0x6000 then loadByte c x nn
  else if hexa = 0x7000 then addByte c x nn
  else if hexa = 0x8000 then
    if nnn &&& 0xf = 0 then loadReg c x y
    else if nnn &&& 0xf = 1 then orReg c x y
    else if nnn &&& 0xf = 2 then andReg c x y
    else if nnn &&& 0xf = 3 then xorReg c x y
    else if nnn &&& 0xf = 4 then addReg c x y
    else if nnn &&& 0xf = 5 then subReg c x y
    else if nnn &&& 0xf = 6 then shiftRight c x
    else if nnn &&& 0xf = 7 then subnReg c x y
    else if nnn &&& 0xf = 0xE then shiftLeft c x
    else .ok c
  else if hexa = 0x9000 then sneReg c x y
  else if hexa = 0xA000 then .ok (loadI c nnn)
  else if hexa = 0xB000 then jumpV0 c nnn
  else if hexa = 0xC000 then random rnd c x nn
  else if hexa = 0xD000 then draw c x y n
  else if hexa = 0xE000 then
    if nn = 0x9E then skipKp c x
    else if nn = 0xA1 then skipNkp c x
    else .ok c
  else if hexa = 0xF000 then
    if nn = 0x07 then loadRegDelay c x
    else if nn = 0x0A then loadRegKey c x
    else if nn = 0x15 then loadDt c x
    else if nn = 0x18 then loadSt c x
    else if nn = 0x1E then addI c x
    else if nn = 0x29 then loadSprite c x
    else if nn = 0x33 then loadBCD c x
    else if nn = 0x55 then loadRegMem c x
    else if nn = 0x65 then loadMemReg c x
    else .ok c
  else .ok c

/-- Modelled from the spec: the variable `hexa` that `execute` switches on (`chip8.go`, line
113).  No declaration of `hexa` exists in the sources; the only declaration nearby is the unused
local `hex := op & 0xF000` of line 106.  The specification says of the decoding that the "top
nibble selects the instruction family", and the case labels of the switch are
`0x000, 0x1000, .., 0xF000`, the top nibble in place: so `hexa` is the opcode masked with
`0xF000`. -/
def hexa (op : Nat) : Nat :=
  op &&& 0xF000

set_option linter.unusedVariables false in
/-- The method `execute`: the six locals the source declares (`hex` among them, which the source
never uses), then the switch on `hexa`, the variable modelled from the spec above.  `rnd` is the
value `rand.Uint32()` returns if the opcode draws one. -/
def execute (rnd : Nat) (c : Chip8) (op : Nat) : Except Fault Chip8 :=
  let hex := op &&& 0xF000
  let nnn := op &&& 0x0FFF
  let nn := (nnn &&& 0xFF) % 256
  let x := ((nnn >>> 8) &&& 0xF) % 256
  let y := ((nnn >>> 4) &&& 0xF) % 256
  let n := nn &&& 0x0f
  dispatch rnd c op (hexa op) nnn nn x y n

/-- The method `step`: one fetch-decode-execute cycle. -/
def step (rnd : Nat) (c : Chip8) : Except Fault Chip8 := do
  let r ← feetch c
  execute rnd r.2 r.1

/-! ## Example states -/

/-- The zero state with the register file `regs`. -/
def regState (regs : Nat → Nat) : Chip8 :=
  { zeroChip8 with v := regs }

/-- Registers `V0 = 0xFF`, `V1 = 0x01`, the others zero. -/
def regsFF01 : Nat → Nat :=
  fun k => if k = 0 then 0xFF else if k = 1 then 0x01 else 0

/-- Registers `V0 = 0x01`, `V1 = 0x02`, the others zero. -/
def regs0102 : Nat → Nat :=
  fun k => if k = 0 then 0x01 else if k = 1 then 0x02 else 0

/-- Registers `V0 = 0x03`, `VF = 0x03`, the others zero. -/
def regs03 : Nat → Nat :=
  fun k => if k = 0 then 0x03 else if k = 0xF then 0x03 else 0

/-- Registers `V0 = 0x81`, `VF = 0x80`, the others zero. -/
def regs81 : Nat → Nat :=
  fun k => if k = 0 then 0x81 else if k = 0xF then 0x80 else 0

/-! ## Specification vocabulary for the draw instruction -/

/-- Bit `7 - ix` of the byte `b`: the pixel of sprite column `ix` (most-significant bit first). -/
def pixelBit (b ix : Nat) : Nat :=
  (b >>> (7 - ix)) &&& 0x01

/-- The sprite bit that a draw at `(vx, vy)` lays over the display cell `(col, row)`: bit
`7 - (col - vx)` of `memory[I + (row - vy)]`. -/
def spriteBit (c : Chip8) (vx vy col row : Nat) : Nat :=
  pixelBit (c.memory (c.i + (row - vy))) (col - vx)

/-- The display cell `(col, row)` lies under the 8-wide, `n`-high sprite placed at `(vx, vy)`. -/
def covered (vx vy n col row : Nat) : Prop :=
  vx ≤ col ∧ col < vx + 8 ∧ vy ≤ row ∧ row < vy + n

instance (vx vy n col row : Nat) : Decidable (covered vx vy n col row) :=
  inferInstanceAs (Decidable (vx ≤ col ∧ col < vx + 8 ∧ vy ≤ row ∧ row < vy + n))

/-- Every sprite row that has a pixel on the screen lies inside the slice `memory[I:]`: the
condition under which the memory reads of a draw at `(vx, vy)` of `n` rows are in range. -/
def spriteInRange (c : Chip8) (vx vy n : Nat) : Prop :=
  c.i ≤ 0x1000 ∧ ∀ iy, iy < n → vx < 64 → vy + iy < 32 → iy < 0x1000 - c.i

instance (c : Chip8) (vx vy n : Nat) : Decidable (spriteInRange c vx vy n) :=
  inferInstanceAs (Decidable
    (c.i ≤ 0x1000 ∧ ∀ iy, iy < n → vx < 64 → vy + iy < 32 → iy < 0x1000 - c.i))

/-- A state for the draw instruction: `I = 0x300` points at the two sprite rows `0xFF, 0xFF`,
`V0 = 62`, `V1 = 31`, and the display is blank; the sprite drawn at `(V0, V1)` overhangs the
right and the bottom edge of the screen. -/
def clipState : Chip8 :=
  { zeroChip8 with
    memory := fun a => if a = 0x300 then 0xFF else if a = 0x301 then 0xFF else 0
    v := fun k => if k = 0 then 62 else if k = 1 then 31 else 0
    i := 0x300 }

/-- A state for the draw instruction: `I = 0x300` points at the one-row sprite `0x80` (a single
pixel), `V0 = V1 = 0`, and the display cell `(0, 0)` is already set. -/
def collideState : Chip8 :=
  { zeroChip8 with
    memory := fun a => if a = 0x300 then 0x80 else 0
    dsp := fun k => if k = 0 then 1 else 0
    i := 0x300 }

/-- A state waiting on `Fx0A` with `x = 3`: the opcode `F30A` is at `pc = 0x200`, and the keys
`5` and `9` are pressed. -/
def keyWaitState : Chip8 :=
  { zeroChip8 with
    memory := fun a => if a = 0x200 then 0xF3 else if a = 0x201 then 0x0A else 0
    keys := fun k => if k = 5 then 1 else if k = 9 then 1 else 0
    pc := 0x200 }

/-! ## Reachable states and operand conditions -/

/-- The states reachable from a freshly constructed interpreter: construction from a program
image of at most 3584 bytes, completed steps, and the input collaborator setting every key to
0 or 1 between steps. -/
inductive Reachable : Chip8 → Prop where
  | fresh (b : List Nat) (hlen : b.length ≤ 3584) (hbytes : ∀ a ∈ b, a < 256) :
      Reachable (newChip8 b)
  | stepped (rnd : Nat) (c c' : Chip8) (hc : Reachable c) (hs : step rnd c = .ok c') :
      Reachable c'
  | keyed (c : Chip8) (k : Nat → Nat) (hc : Reachable c) (hk : ∀ j, k j = 0 ∨ k j = 1) :
      Reachable { c with keys := k }

/-- The program `6020 E09E`: load `V0 = 0x20`, then skip if the key numbered `V0` is pressed. -/
def keyProbeProgram : List Nat :=
  [0x60, 0x20, 0xE0, 0x9E]

/-- The opcode word at `pc`, as `feetch` assembles it. -/
def opcodeAt (c : Chip8) : Nat :=
  (c.memory c.pc <<< 8) ||| c.memory ((c.pc + 1) % 65536)

/-- The operands of the instruction at `pc` index inside their arrays: the two opcode bytes lie
in memory; the stack slot of `2nnn` / `00EE`, the key `Vx` of `Ex9E` / `ExA1`, the three bytes
at `I` of `Fx33`, the on-screen sprite rows of `Dxyn` and the slice bound `I` of `Fx55` / `Fx65`
are in range. -/
def operandsInRange (c : Chip8) : Prop :=
  c.pc + 1 < 0x1000 ∧
  (opcodeAt c = 0x00EE → (c.sp + 1) % 256 < 0x10) ∧
  (opcodeAt c &&& 0xF000 = 0x2000 → c.sp < 0x10) ∧
  (opcodeAt c &&& 0xF000 = 0xD000 →
    spriteInRange c (c.v ((((opcodeAt c &&& 0x0FFF) >>> 8) &&& 0xF) % 256))
      (c.v ((((opcodeAt c &&& 0x0FFF) >>> 4) &&& 0xF) % 256))
      ((((opcodeAt c &&& 0x0FFF) &&& 0xFF) % 256) &&& 0x0f)) ∧
  (opcodeAt c &&& 0xF000 = 0xE000 →
    ((opcodeAt c &&& 0x0FFF) &&& 0xFF) % 256 = 0x9E ∨
      ((opcodeAt c &&& 0x0FFF) &&& 0xFF) % 256 = 0xA1 →
    c.v ((((opcodeAt c &&& 0x0FFF) >>> 8) &&& 0xF) % 256) < 0x10) ∧
  (opcodeAt c &&& 0xF000 = 0xF000 → ((opcodeAt c &&& 0x0FFF) &&& 0xFF) % 256 = 0x33 →
    c.i % 65536 < 0x1000 ∧ (c.i + 1) % 65536 < 0x1000 ∧ (c.i + 2) % 65536 < 0x1000) ∧
  (opcodeAt c &&& 0xF000 = 0xF000 →
    ((opcodeAt c &&& 0x0FFF) &&& 0xFF) % 256 = 0x55 ∨
      ((opcodeAt c &&& 0x0FFF) &&& 0xFF) % 256 = 0x65 →
    c.i ≤ 0x1000)

instance (c : Chip8) : Decidable (operandsInRange c) :=
  inferInstanceAs (Decidable (
  c.pc + 1 < 0x1000 ∧
  (opcodeAt c = 0x00EE → (c.sp + 1) % 256 < 0x10) ∧
  (opcodeAt c &&& 0xF000 = 0x2000 → c.sp < 0x10) ∧
  (opcodeAt c &&& 0xF000 = 0xD000 →
    spriteInRange c (c.v ((((opcodeAt c &&& 0x0FFF) >>> 8) &&& 0xF) % 256))
      (c.v ((((opcodeAt c &&& 0x0FFF) >>> 4) &&& 0xF) % 256))
      ((((opcodeAt c &&& 0x0FFF) &&& 0xFF) % 256) &&& 0x0f)) ∧
  (opcodeAt c &&& 0xF000 = 0xE000 →
    ((opcodeAt c &&& 0x0FFF) &&& 0xFF) % 256 = 0x9E ∨
      ((opcodeAt c &&& 0x0FFF) &&& 0xFF) % 256 = 0xA1 →
    c.v ((((opcodeAt c &&& 0x0FFF) >>> 8) &&& 0xF) % 256) < 0x10) ∧
  (opcodeAt c &&& 0xF000 = 0xF000 → ((opcodeAt c &&& 0x0FFF) &&& 0xFF) % 256 = 0x33 →
    c.i % 65536 < 0x1000 ∧ (c.i + 1) % 65536 < 0x1000 ∧ (c.i + 2) % 65536 < 0x1000) ∧
  (opcodeAt c &&& 0xF000 = 0xF000 →
    ((opcodeAt c &&& 0x0FFF) &&& 0xFF) % 256 = 0x55 ∨
      ((opcodeAt c &&& 0x0FFF) &&& 0xFF) % 256 = 0x65 →
    c.i ≤ 0x1000)))

/-- The state `clipState` about to execute `D012` (draw two rows at `(V0, V1)`), stored at
`pc = 0x200`. -/
def drawStepState : Chip8 :=
  { clipState with
    memory := fun a =>
      if a = 0x200 then 0xD0 else if a = 0x201 then 0x12 else clipState.memory a
    pc := 0x200 }

/-! ## Example states for memory instructions -/

/-- A state for `Fx33`: `V2 = 234` and `I = 0x300`. -/
def bcdState : Chip8 :=
  { zeroChip8 with v := fun k => if k = 2 then 234 else 0, i := 0x300 }

/-- A state for `Fx55` / `Fx65`: `V0 = 7`, `V1 = 8`, `V2 = 9`, `I = 0xFFD`, so that the three
registers end exactly at the last memory cell. -/
def saveState : Chip8 :=
  { zeroChip8 with
    v := fun k => if k = 0 then 7 else if k = 1 then 8 else if k = 2 then 9 else 0
    i := 0xFFD }

/-! ## Iterated calls and steps -/

/-- The handler of `2nnn` run for each address of `targets` in turn, each call made inside the
subroutine entered by the one before: nested calls. -/
def callChain : List Nat → Chip8 → Except Fault Chip8
  | [], c => .ok c
  | nnn :: rest, c => do
    let c ← callSubroutine c nnn
    callChain rest c

/-- The state after `n` consecutive completed calls of `step`. -/
def stepN (rnd : Nat) : Nat → Chip8 → Except Fault Chip8
  | 0, c => .ok c
  | n + 1, c => do
    let c ← step rnd c
    stepN rnd n c

/-- The program `2200` loaded at `0x200`: a subroutine that calls itself without end. -/
def recurseProgram : List Nat :=
  [0x22, 0x00]

/-- The program `00EE`: a return with nothing on the stack. -/
def returnProgram : List Nat :=
  [0x00, 0xEE]

/-- A state about to run `6A05 7AFE` from `pc = 0xFFC`, the last four memory cells: load
`VA = 0x05`, then add `0xFE`. -/
def loadAddState : Chip8 :=
  { zeroChip8 with
    memory := fun a =>
      if a = 0xFFC then 0x6A else if a = 0xFFD then 0x05
      else if a = 0xFFE then 0x7A else if a = 0xFFF then 0xFE else 0
    pc := 0xFFC }

/-! ## Display predicates -/

/-- The result `r` of an operation on `c` has, if the operation completed, the display of `c`. -/
def keepsDsp (c : Chip8) (r : Except Fault Chip8) : Prop :=
  ∀ c', r = .ok c' → c'.dsp = c.dsp

/-- Every one of the 2048 display cells is 0 or 1. -/
def DspBinary (c : Chip8) : Prop :=
  ∀ k, k < 0x800 → c.dsp k = 0 ∨ c.dsp k = 1

/-! ## The run loop (`emulator.go`) -/

/-- The calls an iteration of `Run` makes, in the order of the source. -/
inductive RunEvent where
  | step
  | draw
  | updateSound
  | decrementTimer
  | pollEvents
  deriving DecidableEq, Repr

/-- The loop state of `Run`: the local `cycle` and the log of the calls made so far, oldest
first. -/
structure RunState where
  cycle : Nat
  log : List RunEvent

/-- The local `perVblankCycle := Chip8Frequency / VBlankFrequency` of `Run`. -/
def perVblankCycle : Nat :=
  Chip8Frequency / VBlankFrequency

/-- The state of `Run` on entering the loop: `cycle := 0`, nothing called yet. -/
def runStart : RunState :=
  { cycle := 0, log := [] }

/-- One iteration of the loop body of `Run`, with `e.focus = focus`. -/
def runIteration (focus : Bool) (s : RunState) : RunState :=
  let cycle := s.cycle + 1
  let log := if focus then s.log ++ [RunEvent.step] else s.log
  if cycle > perVblankCycle then
    let log := log ++ [RunEvent.draw]
    let log := if focus then log ++ [RunEvent.updateSound, RunEvent.decrementTimer] else log
    { cycle := 0, log := log ++ [RunEvent.pollEvents] }
  else
    { cycle := cycle, log := log ++ [RunEvent.pollEvents] }

/-- The first `n` iterations of the loop `for e.running`, the focus staying as it is. -/
def runLoop (focus : Bool) : Nat → RunState → RunState
  | 0, s => s
  | n + 1, s => runIteration focus (runLoop focus n s)

/-- The number of calls of `step` in a log. -/
def stepCalls (log : List RunEvent) : Nat :=
  log.count RunEvent.step

/-- The number of calls of `decrementTimer` in a log. -/
def timerCalls (log : List RunEvent) : Nat :=
  log.count RunEvent.decrementTimer

/-! ## Failure reports -/

/-- If the result `r` is the failure of a `log.Fatal` call, the message reported is the fixed
string of the one `log.Fatal` call of `execute`. -/
def fixedReport (r : Except Fault Chip8) : Prop :=
  ∀ m, r = .error (.fatal m) → m = "Not implemented 0NNN"

/-! ## Arithmetic and shift instructions -/

section helpers

@[simp] theorem setAt_same (a : Nat → Nat) (k val : Nat) : setAt a k val k = val := by
  simp [setAt]

theorem setAt_other (a : Nat → Nat) (k val j : Nat) (h : j ≠ k) : setAt a k val j = a j := by
  simp [setAt, h]

theorem setAt_apply (a : Nat → Nat) (k val j : Nat) :
    setAt a k val j = if j = k then val else a j := rfl

theorem updateCarryFlag_eq (c : Chip8) (b : Bool) :
    updateCarryFlag c b = { c with v := setAt c.v 0xf (if b then 1 else 0) } := by
  cases b <;> rfl

end helpers

/-- C6: `8xy4` (`addReg`) completes for every pair of register indices, leaves `VF = 1` if the
sum of the old `Vx` and `Vy` exceeds 255 and `VF = 0` otherwise, leaves
`Vx = (old Vx + old Vy) mod 256` when `x ≠ 0xF`, and changes no register other than `Vx` and
`VF` (and no other component of the state). -/
theorem addReg_carry (c : Chip8) (x y : Nat) (hx : x < 16) (hy : y < 16) :
    ∃ c', addReg c x y = .ok c' ∧
      c'.v 0xF = (if c.v x + c.v y > 255 then 1 else 0) ∧
      (x ≠ 0xF → c'.v x = (c.v x + c.v y) % 256) ∧
      (∀ k, k ≠ x → k ≠ 0xF → c'.v k = c.v k) ∧
      c' = { c with v := c'.v } := by
  refine ⟨_, by simp [addReg, readV, writeV, hx, hy, bind, Except.bind]; rfl, ?_, ?_, ?_, ?_⟩
  · by_cases h : c.v x + c.v y > 255 <;> simp [updateCarryFlag, h]
  · intro hxf
    by_cases h : c.v x + c.v y > 255 <;> simp [updateCarryFlag, h, setAt_apply, hxf]
  · intro k hk hkf
    by_cases h : c.v x + c.v y > 255 <;> simp [updateCarryFlag, h, setAt_apply, hk, hkf]
  · by_cases h : c.v x + c.v y > 255 <;> simp [updateCarryFlag, h]

/-- The two examples of C6: `0xFF + 0x01` gives `Vx = 0x00`, `VF = 1`, and `0x01 + 0x01`
gives `Vx = 0x02`, `VF = 0`. -/
theorem addReg_carry_witness :
    (∃ c', addReg (regState regsFF01) 0 1 = .ok c' ∧ c'.v 0 = 0x00 ∧ c'.v 0xF = 1) ∧
    (∃ c', addReg (regState regs0102) 0 0 = .ok c' ∧ c'.v 0 = 0x02 ∧ c'.v 0xF = 0) := by
  constructor
  · obtain ⟨c', h, hf, hv, _⟩ := addReg_carry (regState regsFF01) 0 1 (by decide) (by decide)
    exact ⟨c', h, by simpa [regState, regsFF01] using hv (by decide),
      by simpa [regState, regsFF01] using hf⟩
  · obtain ⟨c', h, hf, hv, _⟩ := addReg_carry (regState regs0102) 0 0 (by decide) (by decide)
    exact ⟨c', h, by simpa [regState, regs0102] using hv (by decide),
      by simpa [regState, regs0102] using hf⟩

/-- C7: `8xy5` (`subReg`) and `8xy7` (`subnReg`) complete for every pair of register indices and
all byte-valued register contents; `subReg` leaves `Vx = (old Vx - old Vy) mod 256` and `VF = 1`
iff `old Vx ≥ old Vy`, `subnReg` leaves `Vx = (old Vy - old Vx) mod 256` and `VF = 1` iff
`old Vy ≥ old Vx` (the `Vx` result for `x ≠ 0xF`, the flag for every `x`, and `VF` is 0 or 1). -/
theorem subReg_subnReg_noBorrow (c : Chip8) (x y : Nat) (hx : x < 16) (hy : y < 16)
    (hv : ∀ k, c.v k < 256) :
    (∃ c', subReg c x y = .ok c' ∧
      (x ≠ 0xF → (c'.v x : Int) = ((c.v x : Int) - (c.v y : Int)) % 256) ∧
      (c'.v 0xF = 1 ↔ c.v x ≥ c.v y) ∧ (c'.v 0xF = 0 ↔ ¬ c.v x ≥ c.v y)) ∧
    (∃ c', subnReg c x y = .ok c' ∧
      (x ≠ 0xF → (c'.v x : Int) = ((c.v y : Int) - (c.v x : Int)) % 256) ∧
      (c'.v 0xF = 1 ↔ c.v y ≥ c.v x) ∧ (c'.v 0xF = 0 ↔ ¬ c.v y ≥ c.v x)) := by
  have hvx := hv x
  have hvy := hv y
  constructor
  · refine ⟨_, by simp [subReg, readV, writeV, hx, hy, bind, Except.bind]; rfl, ?_, ?_, ?_⟩
    · intro hxf
      simp only [updateCarryFlag_eq, setAt_apply, if_neg hxf, if_true]
      omega
    · by_cases h : c.v x < c.v y <;> simp [updateCarryFlag_eq, h]
      omega
    · by_cases h : c.v x < c.v y <;> simp [updateCarryFlag_eq, h]
  · refine ⟨_, by simp [subnReg, readV, writeV, hx, hy, bind, Except.bind]; rfl, ?_, ?_, ?_⟩
    · intro hxf
      simp only [updateCarryFlag_eq, setAt_apply, if_neg hxf, if_true]
      omega
    · by_cases h : c.v y < c.v x <;> simp [updateCarryFlag_eq, h]
      omega
    · by_cases h : c.v y < c.v x <;> simp [updateCarryFlag_eq, h]

/-- The example of C7: `8xy5` with `Vx = 0x01`, `Vy = 0x02` gives `Vx = 0xFF`, `VF = 0`. -/
theorem subReg_subnReg_noBorrow_witness :
    ∃ c', subReg (regState regs0102) 0 1 = .ok c' ∧ c'.v 0 = 0xFF ∧ c'.v 0xF = 0 := by
  obtain ⟨⟨c', h, hvx, _, hf⟩, _⟩ := subReg_subnReg_noBorrow (regState regs0102) 0 1
    (by decide) (by decide) (by intro k; simp only [regState, regs0102]; split_ifs <;> omega)
  refine ⟨c', h, ?_, hf.mpr (by simp [regState, regs0102])⟩
  have := hvx (by decide)
  simp [regState, regs0102] at this
  omega

/-- C8, refuted as stated: with `x = 0xF` and `VF = 0x03`, `shiftRight` leaves `VF = 0`, not the
least-significant bit `1` of the old value. -/
theorem shiftRight_VF_counterexample :
    ∃ c', shiftRight (regState regs03) 0xF = .ok c' ∧ c'.v 0xF = 0 ∧
      (regState regs03).v 0xF &&& 1 = 1 := by
  refine ⟨_, rfl, ?_, ?_⟩ <;> decide

/-- C8, amended: `8xy6` (`shiftRight`) completes for every register index `x`; for `x ≠ 0xF` it
leaves `VF` equal to the least-significant bit of the old `Vx` and `Vx = old Vx >> 1`; for
`x = 0xF` the flag is written first and shifted out again, so `VF` ends as 0.  No register other
than `Vx` and `VF` and no other component changes. -/
theorem shiftRight_spec (c : Chip8) (x : Nat) (hx : x < 16) :
    ∃ c', shiftRight c x = .ok c' ∧
      (x ≠ 0xF → c'.v 0xF = c.v x &&& 1 ∧ c'.v x = c.v x >>> 1) ∧
      (x = 0xF → c'.v 0xF = 0) ∧
      (∀ k, k ≠ x → k ≠ 0xF → c'.v k = c.v k) ∧
      c' = { c with v := c'.v } := by
  have hand : c.v x &&& 1 = c.v x % 2 := Nat.and_one_is_mod _
  refine ⟨_, by simp [shiftRight, readV, writeV, hx, bind, Except.bind]; rfl, ?_, ?_, ?_, ?_⟩
  · intro hxf
    have hfx : (0xF : Nat) ≠ x := fun h => hxf h.symm
    by_cases h : c.v x % 2 = 1
    · simp [updateCarryFlag_eq, hand, h, setAt_apply, hxf, hfx]
    · have h0 : c.v x % 2 = 0 := by omega
      simp [updateCarryFlag_eq, hand, h0, setAt_apply, hxf, hfx]
  · intro hxf
    subst hxf
    by_cases h : c.v 0xF % 2 = 1 <;> simp [updateCarryFlag_eq, h]
  · intro k hk hkf
    simp [updateCarryFlag_eq, setAt_apply, hk, hkf]
  · simp [updateCarryFlag_eq]

/-- The example of C8: `8xy6` with `Vx = 0x03` (here `x = 0`) gives `Vx = 0x01`, `VF = 1`. -/
theorem shiftRight_spec_witness :
    ∃ c', shiftRight (regState regs03) 0 = .ok c' ∧ c'.v 0 = 0x01 ∧ c'.v 0xF = 1 := by
  obtain ⟨c', h, hne, _⟩ := shiftRight_spec (regState regs03) 0 (by decide)
  obtain ⟨hf, hv⟩ := hne (by decide)
  exact ⟨c', h, by rw [hv]; decide, by rw [hf]; decide⟩

/-- C9, refuted as stated: with `x = 0xF` and `VF = 0x80`, `shiftLeft` leaves `VF = 2`, which is
neither the most-significant bit `1` of the old value nor a value in `{0, 1}`. -/
theorem shiftLeft_VF_counterexample :
    ∃ c', shiftLeft (regState regs81) 0xF = .ok c' ∧ c'.v 0xF = 2 ∧
      (regState regs81).v 0xF >>> 7 = 1 := by
  refine ⟨_, rfl, ?_, ?_⟩ <;> decide

/-- C9, amended: `8xyE` (`shiftLeft`) completes for every register index `x` and byte-valued
registers; for `x ≠ 0xF` it leaves `VF` equal to the most-significant bit of the old `Vx` (0 or
1) and `Vx = (old Vx * 2) mod 256`; for `x = 0xF` the flag is written first and then shifted, so
`VF` ends as twice the old most-significant bit (0 or 2).  No register other than `Vx` and `VF`
and no other component changes. -/
theorem shiftLeft_spec (c : Chip8) (x : Nat) (hx : x < 16) (hv : ∀ k, c.v k < 256) :
    ∃ c', shiftLeft c x = .ok c' ∧
      (x ≠ 0xF → c'.v 0xF = c.v x / 128 ∧ c'.v 0xF ≤ 1 ∧ c'.v x = (c.v x * 2) % 256) ∧
      (x = 0xF → c'.v 0xF = 2 * (c.v 0xF / 128)) ∧
      (∀ k, k ≠ x → k ≠ 0xF → c'.v k = c.v k) ∧
      c' = { c with v := c'.v } := by
  have hvx := hv x
  have hsh : c.v x >>> 7 = c.v x / 128 := by rw [Nat.shiftRight_eq_div_pow]
  have hbit : c.v x / 128 = 0 ∨ c.v x / 128 = 1 := by omega
  refine ⟨_, by simp [shiftLeft, readV, writeV, hx, bind, Except.bind]; rfl, ?_, ?_, ?_, ?_⟩
  · intro hxf
    have hfx : (0xF : Nat) ≠ x := fun h => hxf h.symm
    rcases hbit with h | h <;>
      simp [updateCarryFlag_eq, hsh, h, setAt_apply, hxf, hfx, Nat.shiftLeft_eq]
  · intro hxf
    subst hxf
    rcases hbit with h | h <;> simp [updateCarryFlag_eq, hsh, h, Nat.shiftLeft_eq]
  · intro k hk hkf
    simp [updateCarryFlag_eq, setAt_apply, hk, hkf]
  · simp [updateCarryFlag_eq]

/-- An instance of the amended C9: `Vx = 0x81` (here `x = 0`) gives `Vx = 0x02`, `VF = 1`. -/
theorem shiftLeft_spec_witness :
    ∃ c', shiftLeft (regState regs81) 0 = .ok c' ∧ c'.v 0 = 0x02 ∧ c'.v 0xF = 1 := by
  obtain ⟨c', h, hne, _⟩ := shiftLeft_spec (regState regs81) 0 (by decide)
    (by intro k; simp only [regState, regs81]; split_ifs <;> omega)
  obtain ⟨hf, _, hv⟩ := hne (by decide)
  exact ⟨c', h, by rw [hv]; decide, by rw [hf]; decide⟩

/-! ## Subroutine call and return -/

/-- C10: for every state with `SP` in `0..15` and every call target `nnn`, `callSubroutine nnn`
completes and jumps to `nnn`, and `returnFromSubroutine` run next completes with `PC` equal to
the `PC` at the call (the address following the call instruction) and `SP` equal to its value
before the call; registers, `I`, memory, display, keys and timers are unchanged. -/
theorem call_return_roundtrip (c : Chip8) (nnn : Nat) (hsp : c.sp < 16) :
    ∃ c1 c2, callSubroutine c nnn = .ok c1 ∧ c1.pc = nnn ∧
      returnFromSubroutine c1 = .ok c2 ∧
      c2.pc = c.pc ∧ c2.sp = c.sp ∧ c2.v = c.v ∧ c2.i = c.i ∧ c2.memory = c.memory ∧
      c2.dsp = c.dsp ∧ c2.keys = c.keys ∧ c2.delayTimer = c.delayTimer ∧
      c2.soundTtimer = c.soundTtimer := by
  have h1 : (c.sp + 255 + 1) % 256 = c.sp := by omega
  refine ⟨{ c with stack := setAt c.stack c.sp c.pc, sp := (c.sp + 256 - 1) % 256, pc := nnn },
    { c with stack := setAt c.stack c.sp c.pc }, ?_, rfl, ?_, ?_⟩
  · simp [callSubroutine, pushStak, writeStack, hsp, bind, Except.bind]
  · simp [returnFromSubroutine, popStack, readStack, bind, Except.bind, h1, hsp]
  · simp

/-- An instance of C10 at the lowest stack slot: from `SP = 0` and `PC = 0x202` the call leaves
`SP = 255`, and the return restores `SP = 0` and `PC = 0x202`. -/
theorem call_return_roundtrip_witness :
    ∃ c1 c2, callSubroutine { zeroChip8 with pc := 0x202 } 0x300 = .ok c1 ∧ c1.sp = 255 ∧
      returnFromSubroutine c1 = .ok c2 ∧ c2.pc = 0x202 ∧ c2.sp = 0 := by
  obtain ⟨c1, c2, h1, _, h2, hpc, hsp, _⟩ :=
    call_return_roundtrip { zeroChip8 with pc := 0x202 } 0x300 (by decide)
  refine ⟨c1, c2, h1, ?_, h2, hpc, hsp⟩
  have : callSubroutine { zeroChip8 with pc := 0x202 } 0x300 =
      .ok { zeroChip8 with pc := 0x300, sp := 255, stack := setAt zeroChip8.stack 0 0x202 } := rfl
  rw [this] at h1
  injection h1 with h1
  rw [← h1]

/-! ## The draw instruction -/

theorem drawPixel_skip (base len x y iy ix : Nat) (st : Chip8 × Bool)
    (h : 64 ≤ x + ix ∨ 32 ≤ y + iy) : drawPixel base len x y iy ix st = .ok st := by
  simp [drawPixel, h]

theorem drawPixel_hit (base len x y iy ix : Nat) (c : Chip8) (f : Bool)
    (h1 : x + ix < 64) (h2 : y + iy < 32) (hlen : iy < len) :
    drawPixel base len x y iy ix (c, f) =
      .ok ({ c with dsp := (setAt c.dsp ((y + iy) * 64 + (x + ix))
              (c.dsp ((y + iy) * 64 + (x + ix)) ^^^ pixelBit (c.memory (base + iy)) ix)) },
           if c.dsp ((y + iy) * 64 + (x + ix)) = 1 ∧
              pixelBit (c.memory (base + iy)) ix = 1 then true else f) := by
  have h3 : ¬ (64 ≤ x + ix ∨ 32 ≤ y + iy) := by omega
  have h4 : (y + iy) * 64 + (x + ix) < 2048 := by omega
  simp only [drawPixel, ge_iff_le, h3, if_false, readDsp, writeDsp, h4, if_true, hlen, bind,
    Except.bind, pixelBit]

/-- The inner loop of `draw` after `k` columns of sprite row `iy`: the cells of display row
`vy + iy` in columns `vx .. vx + k - 1` that lie on the screen are XORed with their sprite bit,
and `flipped` records whether one of them was `1` under a set sprite bit. -/
theorem drawRow_spec (base len x y iy : Nat) (hlen : x < 64 → y + iy < 32 → iy < len)
    (c : Chip8) (f : Bool) (k : Nat) :
    ∃ D f', drawRow base len x y iy k (c, f) = .ok ({ c with dsp := D }, f') ∧
      (∀ idx, D idx = if idx < 2048 ∧ idx / 64 = y + iy ∧ x ≤ idx % 64 ∧ idx % 64 < x + k
          then c.dsp idx ^^^ pixelBit (c.memory (base + iy)) (idx % 64 - x)
          else c.dsp idx) ∧
      (f' = true ↔ f = true ∨ ∃ idx, idx < 2048 ∧ idx / 64 = y + iy ∧ x ≤ idx % 64 ∧
          idx % 64 < x + k ∧ c.dsp idx = 1 ∧
          pixelBit (c.memory (base + iy)) (idx % 64 - x) = 1) := by
  induction k with
  | zero =>
    refine ⟨c.dsp, f, rfl, ?_, ?_⟩
    · intro idx
      rw [if_neg (by omega)]
    · constructor
      · intro h; exact Or.inl h
      · rintro (h | ⟨idx, _, _, h1, h2, _⟩)
        · exact h
        · omega
  | succ k ih =>
    obtain ⟨D, f', hrun, hD, hf⟩ := ih
    by_cases hin : x + k < 64 ∧ y + iy < 32
    · have hpix := drawPixel_hit base len x y iy k { c with dsp := D } f' hin.1 hin.2
        (hlen (by omega) hin.2)
      dsimp only at hpix
      have e1 : ((y + iy) * 64 + (x + k)) % 64 = x + k := by omega
      have e2 : ((y + iy) * 64 + (x + k)) / 64 = y + iy := by omega
      have e3 : (y + iy) * 64 + (x + k) < 2048 := by omega
      have hD0 : D ((y + iy) * 64 + (x + k)) = c.dsp ((y + iy) * 64 + (x + k)) := by
        rw [hD, if_neg (by omega)]
      refine ⟨_, _, by simp only [drawRow, hrun, bind, Except.bind]; exact hpix, ?_, ?_⟩
      · intro idx
        show setAt D _ _ idx = _
        by_cases he : idx = (y + iy) * 64 + (x + k)
        · rw [he, setAt_same, hD0, if_pos (by omega), e1]
          simp
        · rw [setAt_other _ _ _ _ he, hD]
          by_cases hc : idx < 2048 ∧ idx / 64 = y + iy ∧ x ≤ idx % 64 ∧ idx % 64 < x + k
          · rw [if_pos hc, if_pos (by omega)]
          · rw [if_neg hc, if_neg (by omega)]
      · show ((if D _ = 1 ∧ pixelBit (c.memory (base + iy)) k = 1 then true else f') = true) ↔ _
        rw [hD0]
        constructor
        · intro h
          split_ifs at h with hs
          · refine Or.inr ⟨(y + iy) * 64 + (x + k), e3, e2, by omega, by omega, hs.1, ?_⟩
            rw [e1]; simpa using hs.2
          · rcases hf.mp h with h | ⟨idx, a1, a2, a3, a4, a5, a6⟩
            · exact Or.inl h
            · exact Or.inr ⟨idx, a1, a2, a3, by omega, a5, a6⟩
        · rintro (h | ⟨idx, a1, a2, a3, a4, a5, a6⟩)
          · split_ifs
            · rfl
            · exact hf.mpr (Or.inl h)
          · by_cases he : idx = (y + iy) * 64 + (x + k)
            · subst he
              rw [e1] at a6
              rw [if_pos ⟨a5, by simpa using a6⟩]
            · split_ifs
              · rfl
              · exact hf.mpr (Or.inr ⟨idx, a1, a2, a3, by omega, a5, a6⟩)
    · have hskip := drawPixel_skip base len x y iy k ({ c with dsp := D }, f') (by omega)
      refine ⟨D, f', by simp only [drawRow, hrun, bind, Except.bind]; exact hskip, ?_, ?_⟩
      · intro idx
        rw [hD]
        by_cases hc : idx < 2048 ∧ idx / 64 = y + iy ∧ x ≤ idx % 64 ∧ idx % 64 < x + k
        · rw [if_pos hc, if_pos (by omega)]
        · rw [if_neg hc, if_neg (by omega)]
      · rw [hf]
        constructor
        · rintro (h | ⟨idx, a1, a2, a3, a4, a5, a6⟩)
          · exact Or.inl h
          · exact Or.inr ⟨idx, a1, a2, a3, by omega, a5, a6⟩
        · rintro (h | ⟨idx, a1, a2, a3, a4, a5, a6⟩)
          · exact Or.inl h
          · exact Or.inr ⟨idx, a1, a2, a3, by omega, a5, a6⟩

/-- The outer loop of `draw` after `k` sprite rows (all of them inside the slice `sm`): every
on-screen cell under the first `k` sprite rows is XORed with its sprite bit, every other cell
is kept, and `flipped` records whether one of those cells was `1` under a set sprite bit. -/
theorem drawRows_spec (base len x y : Nat) (c : Chip8) (f : Bool) (k : Nat)
    (hk : ∀ iy, iy < k → x < 64 → y + iy < 32 → iy < len) :
    ∃ D f', drawRows base len x y k (c, f) = .ok ({ c with dsp := D }, f') ∧
      (∀ idx, D idx =
          if idx < 2048 ∧ x ≤ idx % 64 ∧ idx % 64 < x + 8 ∧ y ≤ idx / 64 ∧ idx / 64 < y + k
          then c.dsp idx ^^^ pixelBit (c.memory (base + (idx / 64 - y))) (idx % 64 - x)
          else c.dsp idx) ∧
      (f' = true ↔ f = true ∨ ∃ idx, idx < 2048 ∧ x ≤ idx % 64 ∧ idx % 64 < x + 8 ∧
          y ≤ idx / 64 ∧ idx / 64 < y + k ∧ c.dsp idx = 1 ∧
          pixelBit (c.memory (base + (idx / 64 - y))) (idx % 64 - x) = 1) := by
  induction k with
  | zero =>
    refine ⟨c.dsp, f, rfl, ?_, ?_⟩
    · intro idx
      rw [if_neg (by omega)]
    · constructor
      · intro h; exact Or.inl h
      · rintro (h | ⟨idx, _, _, _, h1, h2, _⟩)
        · exact h
        · omega
  | succ k ih =>
    obtain ⟨D, f', hrun, hD, hf⟩ := ih (fun iy h => hk iy (by omega))
    obtain ⟨D2, f2, hrun2, hD2, hf2⟩ :=
      drawRow_spec base len x y k (hk k (by omega)) { c with dsp := D } f' 8
    dsimp only at hrun2 hD2 hf2
    have hrow : ∀ idx, idx / 64 = y + k → D idx = c.dsp idx := by
      intro idx h
      rw [hD, if_neg (by omega)]
    refine ⟨D2, f2, by simp only [drawRows, hrun, bind, Except.bind]; exact hrun2, ?_, ?_⟩
    · intro idx
      rw [hD2]
      by_cases hc : idx < 2048 ∧ idx / 64 = y + k ∧ x ≤ idx % 64 ∧ idx % 64 < x + 8
      · have e : idx / 64 - y = k := by omega
        rw [if_pos hc, if_pos (by omega), hrow idx hc.2.1, e]
      · rw [if_neg hc, hD]
        by_cases hc2 : idx < 2048 ∧ x ≤ idx % 64 ∧ idx % 64 < x + 8 ∧ y ≤ idx / 64 ∧
            idx / 64 < y + k
        · rw [if_pos hc2, if_pos (by omega)]
        · rw [if_neg hc2, if_neg (by omega)]
    · rw [hf2, hf]
      constructor
      · rintro ((h | ⟨idx, a1, a2, a3, a4, a5, a6, a7⟩) | ⟨idx, a1, a2, a3, a4, a5, a6⟩)
        · exact Or.inl h
        · exact Or.inr ⟨idx, a1, a2, a3, a4, by omega, a6, a7⟩
        · have e : idx / 64 - y = k := by omega
          refine Or.inr ⟨idx, a1, a3, a4, by omega, by omega, ?_, ?_⟩
          · rw [← hrow idx a2]; exact a5
          · rw [e]; exact a6
      · rintro (h | ⟨idx, a1, a2, a3, a4, a5, a6, a7⟩)
        · exact Or.inl (Or.inl h)
        · by_cases hr : idx / 64 = y + k
          · have e : idx / 64 - y = k := by omega
            refine Or.inr ⟨idx, a1, hr, a2, a3, ?_, ?_⟩
            · rw [hrow idx hr]; exact a6
            · rw [← e]; exact a7
          · exact Or.inl (Or.inr ⟨idx, a1, a2, a3, a4, by omega, a6, a7⟩)

/-- The result of `draw`, cell by cell on the linear framebuffer. -/
theorem draw_linear (c : Chip8) (x y n : Nat) (hx : x < 16) (hy : y < 16)
    (hI : spriteInRange c (c.v x) (c.v y) n) :
    ∃ D f', draw c x y n = .ok (updateCarryFlag { c with dsp := D } f') ∧
      (∀ idx, D idx =
          if idx < 2048 ∧ covered (c.v x) (c.v y) n (idx % 64) (idx / 64)
          then c.dsp idx ^^^ spriteBit c (c.v x) (c.v y) (idx % 64) (idx / 64)
          else c.dsp idx) ∧
      (f' = true ↔ ∃ idx, idx < 2048 ∧ covered (c.v x) (c.v y) n (idx % 64) (idx / 64) ∧
          c.dsp idx = 1 ∧ spriteBit c (c.v x) (c.v y) (idx % 64) (idx / 64) = 1) := by
  obtain ⟨D, f', hrun, hD, hf⟩ :=
    drawRows_spec c.i (0x1000 - c.i) (c.v x) (c.v y) c false n hI.2
  have hi : ¬ c.i > 4096 := by have := hI.1; omega
  refine ⟨D, f', ?_, ?_, ?_⟩
  · simp only [draw, readV, hx, hy, if_true, hi, if_false, hrun, bind, Except.bind]
  · intro idx
    rw [hD]
    simp only [covered, spriteBit]
  · rw [hf]
    simp only [covered, spriteBit, Bool.false_eq_true, false_or, and_assoc]

theorem spriteInRange_of_le (c : Chip8) (vx vy n : Nat) (h : c.i + n ≤ 4096) :
    spriteInRange c vx vy n :=
  ⟨by omega, fun iy hiy _ _ => by omega⟩

/-- A sprite row with a pixel on the screen but outside the slice `memory[I:]` makes the inner
loop of `draw` panic (at its first column). -/
theorem drawRow_fail (base len x y iy : Nat) (hx : x < 64) (hy : y + iy < 32)
    (hlen : ¬ iy < len) (st : Chip8 × Bool) (k : Nat) :
    drawRow base len x y iy (k + 1) st = .error .indexOutOfRange := by
  induction k with
  | zero =>
    have h3 : ¬ (64 ≤ x + 0 ∨ 32 ≤ y + iy) := by omega
    have h4 : (y + iy) * 64 + (x + 0) < 2048 := by omega
    simp only [drawRow, drawPixel, ge_iff_le, h3, if_false, readDsp, writeDsp, h4, if_true,
      hlen, bind, Except.bind]
  | succ k ih =>
    rw [drawRow, ih]
    rfl

/-- If some sprite row with a pixel on the screen lies outside the slice, the outer loop of
`draw` panics. -/
theorem drawRows_fail (base len x y : Nat) (hx : x < 64) (st : Chip8 × Bool) (k : Nat)
    (h : ∃ iy, iy < k ∧ y + iy < 32 ∧ ¬ iy < len) :
    drawRows base len x y k st = .error .indexOutOfRange := by
  induction k with
  | zero =>
    obtain ⟨iy, h0, _⟩ := h
    omega
  | succ k ih =>
    obtain ⟨iy, h0, h1, h2⟩ := h
    by_cases hk : iy < k
    · rw [drawRows, ih ⟨iy, hk, h1, h2⟩]
      rfl
    · have e : iy = k := by omega
      subst e
      rw [drawRows]
      cases hr : drawRows base len x y iy st with
      | error e =>
        cases e with
        | indexOutOfRange => rfl
        | fatal msg =>
          exfalso
          by_cases hall : ∀ j, j < iy → x < 64 → y + j < 32 → j < len
          · obtain ⟨D, f', hrun, _⟩ := drawRows_spec base len x y st.1 st.2 iy hall
            rw [hr] at hrun
            cases hrun
          · push_neg at hall
            obtain ⟨j, hj, _, hj2, hj3⟩ := hall
            rw [ih ⟨j, hj, hj2, by omega⟩] at hr
            cases hr
      | ok st' =>
        show drawRow base len x y iy 8 st' = _
        exact drawRow_fail base len x y iy hx h1 h2 st' 7

/-- The instruction `draw` completes exactly when its sprite rows are in range. -/
theorem draw_ok_iff (c : Chip8) (x y n : Nat) (hx : x < 16) (hy : y < 16) :
    (∃ c', draw c x y n = .ok c') ↔ spriteInRange c (c.v x) (c.v y) n := by
  constructor
  · rintro ⟨c', h⟩
    by_contra hnot
    by_cases hi : c.i ≤ 0x1000
    · have : ∃ iy, iy < n ∧ c.v x < 64 ∧ c.v y + iy < 32 ∧ ¬ iy < 0x1000 - c.i := by
        by_contra hne
        push_neg at hne
        exact hnot ⟨hi, hne⟩
      obtain ⟨iy, h0, h1, h2, h3⟩ := this
      have hf := drawRows_fail c.i (0x1000 - c.i) (c.v x) (c.v y) h1 (c, false) n ⟨iy, h0, h2, h3⟩
      have hi2 : ¬ c.i > 4096 := by omega
      simp only [draw, readV, hx, hy, if_true, hi2, if_false, hf, bind, Except.bind] at h
      cases h
    · have hi2 : c.i > 4096 := by omega
      simp only [draw, readV, hx, hy, if_true, hi2, bind, Except.bind] at h
      cases h
  · intro h
    obtain ⟨D, f', hrun, _⟩ := draw_linear c x y n hx hy h
    exact ⟨_, hrun⟩

/-- Outside that condition `draw` ends in the index panic. -/
theorem draw_out_of_range (c : Chip8) (x y n : Nat) (hx : x < 16) (hy : y < 16)
    (h : ¬ spriteInRange c (c.v x) (c.v y) n) : draw c x y n = .error .indexOutOfRange := by
  by_cases hi : c.i ≤ 0x1000
  · have : ∃ iy, iy < n ∧ c.v x < 64 ∧ c.v y + iy < 32 ∧ ¬ iy < 0x1000 - c.i := by
      by_contra hne
      push_neg at hne
      exact h ⟨hi, hne⟩
    obtain ⟨iy, h0, h1, h2, h3⟩ := this
    have hf := drawRows_fail c.i (0x1000 - c.i) (c.v x) (c.v y) h1 (c, false) n ⟨iy, h0, h2, h3⟩
    have hi2 : ¬ c.i > 4096 := by omega
    simp only [draw, readV, hx, hy, if_true, hi2, if_false, hf, bind, Except.bind]
  · have hi2 : c.i > 4096 := by omega
    simp only [draw, readV, hx, hy, if_true, hi2, bind, Except.bind]

theorem linear_index (col row : Nat) (hc : col < 64) :
    (row * 64 + col) % 64 = col ∧ (row * 64 + col) / 64 = row := by
  constructor <;> omega

theorem xor_one_eq_one_iff (a : Nat) : a ^^^ 1 = 1 ↔ a = 0 := by
  constructor
  · intro h
    have h2 : a ^^^ 1 ^^^ 1 = a := Nat.xor_cancel_right 1 a
    rw [h] at h2
    exact h2.symm
  · intro h
    subst h
    rfl

/-- C1: for every state with `I + n ≤ 4096` and all register indices `x`, `y`, `draw x y n`
completes; every display cell `(col, row)` of the 64×32 screen that lies under the sprite placed
at the old `(Vx, Vy)` equals its old value XOR bit `7 - (col - Vx)` of `memory[I + (row - Vy)]`,
every other cell is unchanged (sprite pixels beyond column 63 or row 31 are dropped, they do not
wrap); `VF` is 1 if some on-screen cell under the sprite was 1 and its sprite bit was 1, else 0;
`I`, memory and the registers other than `VF` are unchanged. -/
theorem draw_clipped_xor (c : Chip8) (x y n : Nat) (hx : x < 16) (hy : y < 16)
    (hI : c.i + n ≤ 4096) :
    ∃ c', draw c x y n = .ok c' ∧
      (∀ col row, col < 64 → row < 32 →
        c'.dsp (row * 64 + col) =
          if covered (c.v x) (c.v y) n col row
          then c.dsp (row * 64 + col) ^^^ spriteBit c (c.v x) (c.v y) col row
          else c.dsp (row * 64 + col)) ∧
      ((∃ col row, col < 64 ∧ row < 32 ∧ covered (c.v x) (c.v y) n col row ∧
          c.dsp (row * 64 + col) = 1 ∧ spriteBit c (c.v x) (c.v y) col row = 1) →
        c'.v 0xF = 1) ∧
      ((¬ ∃ col row, col < 64 ∧ row < 32 ∧ covered (c.v x) (c.v y) n col row ∧
          c.dsp (row * 64 + col) = 1 ∧ spriteBit c (c.v x) (c.v y) col row = 1) →
        c'.v 0xF = 0) ∧
      c'.i = c.i ∧ c'.memory = c.memory ∧ (∀ k, k ≠ 0xF → c'.v k = c.v k) := by
  obtain ⟨D, f', hrun, hD, hf⟩ :=
    draw_linear c x y n hx hy (spriteInRange_of_le c _ _ n hI)
  refine ⟨_, hrun, ?_, ?_, ?_, ?_, ?_, ?_⟩
  · intro col row hc hr
    obtain ⟨e1, e2⟩ := linear_index col row hc
    have e3 : row * 64 + col < 2048 := by omega
    simp only [updateCarryFlag_eq]
    rw [hD, e1, e2]
    simp only [e3, true_and]
  · rintro ⟨col, row, hc, hr, hcov, hs, hb⟩
    obtain ⟨e1, e2⟩ := linear_index col row hc
    have hft : f' = true := hf.mpr ⟨row * 64 + col, by omega, by rw [e1, e2]; exact hcov, hs,
      by rw [e1, e2]; exact hb⟩
    simp [updateCarryFlag_eq, hft]
  · intro hno
    have hff : f' = false := by
      cases hf' : f' with
      | false => rfl
      | true =>
        exfalso
        obtain ⟨idx, h0, hcov, hs, hb⟩ := hf.mp hf'
        have hidx : idx / 64 * 64 + idx % 64 = idx := by omega
        exact hno ⟨idx % 64, idx / 64, by omega, by omega, hcov, by rw [hidx]; exact hs, hb⟩
    simp [updateCarryFlag_eq, hff]
  · simp [updateCarryFlag_eq]
  · simp [updateCarryFlag_eq]
  · intro k hk
    simp [updateCarryFlag_eq, setAt_apply, hk]

/-- An instance of C1 with clipping: the two-row sprite `0xFF, 0xFF` drawn at `(62, 31)` on a
blank screen sets the cells `(62, 31)` and `(63, 31)`, nothing wraps to column 0 or to row 0,
and `VF = 0`. -/
theorem draw_clipped_xor_witness :
    ∃ c', draw clipState 0 1 2 = .ok c' ∧
      c'.dsp (31 * 64 + 62) = 1 ∧ c'.dsp (31 * 64 + 63) = 1 ∧
      c'.dsp (31 * 64 + 0) = 0 ∧ c'.dsp (0 * 64 + 62) = 0 ∧ c'.v 0xF = 0 := by
  obtain ⟨c', h, hcell, _, hvf, _⟩ :=
    draw_clipped_xor clipState 0 1 2 (by decide) (by decide) (by decide)
  refine ⟨c', h, ?_, ?_, ?_, ?_, ?_⟩
  · rw [hcell 62 31 (by decide) (by decide)]; decide
  · rw [hcell 63 31 (by decide) (by decide)]; decide
  · rw [hcell 0 31 (by decide) (by decide)]; decide
  · rw [hcell 62 0 (by decide) (by decide)]; decide
  · apply hvf
    rintro ⟨col, row, _, _, _, hs, _⟩
    simp [clipState, zeroChip8] at hs

/-- C2, refuted as stated: the one-pixel sprite `0x80` is drawn twice at `(0, 0)` over a cell
that is set.  Both draws complete with the same `I`, sprite byte and coordinates, the sprite
is non-empty, and yet the second draw leaves `VF = 0`. -/
theorem draw_twice_VF_counterexample :
    ∃ c1 c2, draw collideState 0 1 1 = .ok c1 ∧ draw c1 0 1 1 = .ok c2 ∧
      c1.i = collideState.i ∧ c1.memory = collideState.memory ∧
      c1.v 0 = collideState.v 0 ∧ c1.v 1 = collideState.v 1 ∧
      collideState.memory collideState.i = 0x80 ∧ c2.v 0xF = 0 := by
  refine ⟨_, _, rfl, rfl, rfl, rfl, ?_, ?_, ?_, ?_⟩ <;> decide

/-- C2, amended: for every state on which `draw x y n` completes, executing it again on a state
with the resulting display and the same `I`, memory, `Vx` and `Vy` completes and restores the
display to what it was before the first draw; the second draw leaves `VF = 1` exactly when some
set sprite bit lies on an on-screen cell that was 0 before the first draw, and `VF = 0`
otherwise. -/
theorem draw_twice_restores (c c1 t : Chip8) (x y n : Nat) (hx : x < 16) (hy : y < 16)
    (h1 : draw c x y n = .ok c1)
    (hdsp : t.dsp = c1.dsp) (hi : t.i = c.i) (hmem : t.memory = c.memory)
    (hvx : t.v x = c.v x) (hvy : t.v y = c.v y) :
    ∃ c2, draw t x y n = .ok c2 ∧ c2.dsp = c.dsp ∧
      (c2.v 0xF = 1 ↔ ∃ col row, col < 64 ∧ row < 32 ∧ covered (c.v x) (c.v y) n col row ∧
          c.dsp (row * 64 + col) = 0 ∧ spriteBit c (c.v x) (c.v y) col row = 1) ∧
      (c2.v 0xF = 0 ∨ c2.v 0xF = 1) := by
  have hr : spriteInRange c (c.v x) (c.v y) n := (draw_ok_iff c x y n hx hy).mp ⟨c1, h1⟩
  have hrt : spriteInRange t (t.v x) (t.v y) n := by
    unfold spriteInRange at hr ⊢
    rw [hi, hvx, hvy]
    exact hr
  obtain ⟨D, f', hrun, hD, _⟩ := draw_linear c x y n hx hy hr
  obtain ⟨D2, f2, hrun2, hD2, hf2⟩ := draw_linear t x y n hx hy hrt
  have hc1 : c1.dsp = D := by
    rw [h1] at hrun
    injection hrun with hrun
    rw [hrun, updateCarryFlag_eq]
  have hbit : ∀ col row, spriteBit t (t.v x) (t.v y) col row =
      spriteBit c (c.v x) (c.v y) col row := by
    intro col row
    simp only [spriteBit, hi, hmem, hvx, hvy]
  have hD2' : ∀ idx, D2 idx =
      if idx < 2048 ∧ covered (c.v x) (c.v y) n (idx % 64) (idx / 64)
      then D idx ^^^ spriteBit c (c.v x) (c.v y) (idx % 64) (idx / 64) else D idx := by
    intro idx
    rw [hD2 idx, hbit, hvx, hvy, hdsp, hc1]
  refine ⟨_, hrun2, ?_, ?_, ?_⟩
  · simp only [updateCarryFlag_eq]
    funext idx
    rw [hD2', hD]
    split_ifs
    · exact Nat.xor_cancel_right _ _
    · rfl
  · have hv : (updateCarryFlag { t with dsp := D2 } f2).v 0xF = 1 ↔ f2 = true := by
      cases f2 <;> simp [updateCarryFlag_eq]
    rw [hv, hf2]
    constructor
    · rintro ⟨idx, h0, hcov, hs, hb⟩
      rw [hvx, hvy] at hcov
      rw [hbit] at hb
      have hidx : idx / 64 * 64 + idx % 64 = idx := by omega
      refine ⟨idx % 64, idx / 64, by omega, by omega, hcov, ?_, hb⟩
      rw [hidx]
      rw [hdsp, hc1, hD, if_pos ⟨h0, hcov⟩, hb] at hs
      exact (xor_one_eq_one_iff _).mp hs
    · rintro ⟨col, row, hc, hro, hcov, hs, hb⟩
      obtain ⟨e1, e2⟩ := linear_index col row hc
      have e3 : row * 64 + col < 2048 := by omega
      refine ⟨row * 64 + col, e3, by rw [e1, e2, hvx, hvy]; exact hcov, ?_,
        by rw [e1, e2, hbit]; exact hb⟩
      rw [hdsp, hc1, hD, e1, e2, if_pos ⟨e3, hcov⟩, hb, hs]
      rfl
  · cases f2 <;> simp [updateCarryFlag_eq]

/-- An instance of the amended C2: on `clipState` the sprite is drawn twice at `(62, 31)`; the
second draw restores the blank display and, the covered on-screen cells having been 0, leaves
`VF = 1`. -/
theorem draw_twice_restores_witness :
    ∃ c1 c2, draw clipState 0 1 2 = .ok c1 ∧ draw c1 0 1 2 = .ok c2 ∧
      c2.dsp = clipState.dsp ∧ c2.v 0xF = 1 := by
  obtain ⟨c1, h1⟩ : ∃ c1, draw clipState 0 1 2 = .ok c1 := ⟨_, rfl⟩
  have hc1 : c1.i = clipState.i ∧ c1.memory = clipState.memory ∧
      c1.v 0 = clipState.v 0 ∧ c1.v 1 = clipState.v 1 := by
    have h2 : draw clipState 0 1 2 = .ok c1 := h1
    injection h2 with h2
    subst h2
    exact ⟨rfl, rfl, rfl, rfl⟩
  obtain ⟨c2, h2, hd, hvf, _⟩ := draw_twice_restores clipState c1 c1 0 1 2 (by decide)
    (by decide) h1 rfl hc1.1 hc1.2.1 hc1.2.2.1 hc1.2.2.2
  exact ⟨c1, c2, h1, h2, hd, hvf.mpr ⟨62, 31, by decide, by decide, by decide, by decide,
    by decide⟩⟩

/-! ## Decoding: opcodes outside the instruction table -/

/-- C3, refuted as stated: on the zero state the opcodes `8008`, `E000` and `F000` return
normally with the state unchanged, `5001` returns normally after the skip of `5xy0`
(`V0 = V0`), and `9001` returns normally as `9xy0`; none takes the fatal path.  The first five
parts run `execute`, which switches on `hexa` as modelled from the specification (the source
declares no `hexa`); the last five run the switch itself with the switch variable given as the
top nibble in place and the operands as `execute` decodes them. -/
theorem execute_unrecognized_counterexample :
    execute 0 zeroChip8 0x8008 = .ok zeroChip8 ∧
    execute 0 zeroChip8 0xE000 = .ok zeroChip8 ∧
    execute 0 zeroChip8 0xF000 = .ok zeroChip8 ∧
    execute 0 zeroChip8 0x5001 = .ok { zeroChip8 with pc := 2 } ∧
    execute 0 zeroChip8 0x9001 = .ok zeroChip8 ∧
    dispatch 0 zeroChip8 0x8008 0x8000 0x008 0x08 0 0 8 = .ok zeroChip8 ∧
    dispatch 0 zeroChip8 0xE000 0xE000 0x000 0x00 0 0 0 = .ok zeroChip8 ∧
    dispatch 0 zeroChip8 0xF000 0xF000 0x000 0x00 0 0 0 = .ok zeroChip8 ∧
    dispatch 0 zeroChip8 0x5001 0x5000 0x001 0x01 0 0 1 = .ok { zeroChip8 with pc := 2 } ∧
    dispatch 0 zeroChip8 0x9001 0x9000 0x001 0x01 0 0 1 = .ok zeroChip8 :=
  ⟨rfl, rfl, rfl, rfl, rfl, rfl, rfl, rfl, rfl, rfl⟩

theorem and_F000_of_lt (op : Nat) (h : op < 0x1000) : op &&& 0xF000 = 0 := by
  apply Nat.eq_of_testBit_eq
  intro k
  rw [Nat.testBit_land, Nat.zero_testBit]
  by_cases hk : k < 12
  · have h2 : Nat.testBit 0xF000 k = false := by
      interval_cases k <;> rfl
    rw [h2, Bool.and_false]
  · have h3 : (2 : Nat) ^ 12 ≤ 2 ^ k := Nat.pow_le_pow_right (by decide) (by omega)
    have h2 : op.testBit k = false := Nat.testBit_lt_two_pow (lt_of_lt_of_le h h3)
    rw [h2, Bool.false_and]

/-- C3, amended: every opcode `0nnn` (top nibble 0) other than `00E0` and `00EE` makes
`execute` take the fatal path `log.Fatal` with the message `Not implemented 0NNN`, whatever the
state; and so does `step` on every state that holds such an opcode at `PC`.  Here `execute`
switches on `hexa` as modelled from the specification (the source declares no `hexa`); the last
part is the same fact about the switch itself, for any switch variable with the value `0x0000`
and any operands. -/
theorem execute_0nnn_fatal (rnd : Nat) (c : Chip8) (op : Nat)
    (h0 : op < 0x1000) (hE0 : op ≠ 0x00E0) (hEE : op ≠ 0x00EE) :
    execute rnd c op = .error (.fatal "Not implemented 0NNN") ∧
    (c.pc + 1 < 0x1000 → opcodeAt c = op →
      step rnd c = .error (.fatal "Not implemented 0NNN")) ∧
    (∀ s h nnn nn x y n, h = 0x0000 →
      dispatch rnd s op h nnn nn x y n = .error (.fatal "Not implemented 0NNN")) := by
  have hz : op &&& 0xF000 = 0x0000 := and_F000_of_lt op h0
  have hex : ∀ s : Chip8, execute rnd s op = .error (.fatal "Not implemented 0NNN") := by
    intro s
    simp only [execute, hexa, dispatch, hz, if_true, hE0, hEE, if_false]
  refine ⟨hex c, fun hpc hop => ?_, ?_⟩
  · have hp0 : c.pc < 0x1000 := by omega
    have hp1 : (c.pc + 1) % 65536 < 0x1000 := by omega
    have hfetch : step rnd c =
        execute rnd { c with pc := (c.pc + 2) % 65536 } (opcodeAt c) := by
      simp only [step, feetch, readMem, hp0, hp1, if_true, bind, Except.bind, opcodeAt]
    rw [hfetch, hop]
    exact hex _
  · intro s h nnn nn x y n hh
    simp only [dispatch, hh, if_true, hE0, hEE, if_false]

/-- An instance of the amended C3: the opcode `0123` is fatal, and so is the first step of the
interpreter constructed from the program image `01 23`. -/
theorem execute_0nnn_fatal_witness :
    execute 0 zeroChip8 0x0123 = .error (.fatal "Not implemented 0NNN") ∧
    step 0 (newChip8 [0x01, 0x23]) = .error (.fatal "Not implemented 0NNN") := by
  constructor
  · exact (execute_0nnn_fatal 0 zeroChip8 0x0123 (by decide) (by decide) (by decide)).1
  · exact (execute_0nnn_fatal 0 (newChip8 [0x01, 0x23]) 0x0123 (by decide) (by decide)
      (by decide)).2.1 (by decide) (by decide)

/-! ## The blocking key wait -/

theorem firstPressed_none (keys : Nat → Nat) (fuel k : Nat)
    (h : ∀ j, k ≤ j → j < k + fuel → keys j ≠ 1) : firstPressed keys fuel k = 0xff := by
  induction fuel generalizing k with
  | zero => rfl
  | succ fuel ih =>
    rw [firstPressed, if_neg (h k (by omega) (by omega))]
    exact ih (k + 1) (fun j h1 h2 => h j (by omega) (by omega))

theorem firstPressed_some (keys : Nat → Nat) (fuel k : Nat)
    (h : ∃ j, k ≤ j ∧ j < k + fuel ∧ keys j = 1) :
    ∃ r, k ≤ r ∧ r < k + fuel ∧ keys r = 1 ∧ (∀ j, k ≤ j → j < r → keys j ≠ 1) ∧
      firstPressed keys fuel k = r := by
  induction fuel generalizing k with
  | zero =>
    obtain ⟨j, h1, h2, _⟩ := h
    omega
  | succ fuel ih =>
    by_cases hk : keys k = 1
    · exact ⟨k, by omega, by omega, hk, fun j h1 h2 => by omega, by rw [firstPressed, if_pos hk]⟩
    · obtain ⟨j, h1, h2, h3⟩ := h
      have hjk : j ≠ k := fun e => hk (e ▸ h3)
      obtain ⟨r, r1, r2, r3, r4, r5⟩ := ih (k + 1) ⟨j, by omega, by omega, h3⟩
      refine ⟨r, by omega, by omega, r3, ?_, by rw [firstPressed, if_neg hk]; exact r5⟩
      intro i i1 i2
      by_cases hik : i = k
      · rw [hik]; exact hk
      · exact r4 i (by omega) i2

/-- The decoding of the opcode word `Fx0A`. -/
theorem decode_Fx0A : ∀ x, x < 16 →
    (((0xF0 + x) <<< 8) ||| 0x0A) &&& 0xF000 = 0xF000 ∧
    ((((0xF0 + x) <<< 8) ||| 0x0A) &&& 0x0FFF &&& 0xFF) % 256 = 0x0A ∧
    ((((((0xF0 + x) <<< 8) ||| 0x0A) &&& 0x0FFF) >>> 8) &&& 0xF) % 256 = x := by
  decide

/-- C5: for every state whose memory at `PC` holds `Fx0A`: if no key is pressed, `step` returns
the state unchanged (`PC` included), so repeated steps stay on the instruction; if some key is
pressed, `step` advances `PC` by exactly 2, sets `Vx` to the lowest pressed key index, and
changes nothing else.  Here `step` runs `execute`, which switches on `hexa` as modelled from
the specification (the source declares no `hexa`); the last part states the same of the switch
itself, entered after the fetch with the switch variable given as `0xF000` and the low byte
`0x0A`. -/
theorem step_Fx0A (rnd : Nat) (c : Chip8) (x : Nat) (hx : x < 16) (hpc : c.pc + 1 < 0x1000)
    (hhi : c.memory c.pc = 0xF0 + x) (hlo : c.memory (c.pc + 1) = 0x0A) :
    ((∀ k, k < 16 → c.keys k ≠ 1) → step rnd c = .ok c) ∧
    ((∃ k, k < 16 ∧ c.keys k = 1) →
      ∃ k, k < 16 ∧ c.keys k = 1 ∧ (∀ j, j < k → c.keys j ≠ 1) ∧
        step rnd c = .ok { c with pc := c.pc + 2, v := setAt c.v x k }) ∧
    (∀ op nnn y n,
      ((∀ k, k < 16 → c.keys k ≠ 1) →
        dispatch rnd { c with pc := c.pc + 2 } op 0xF000 nnn 0x0A x y n = .ok c) ∧
      ((∃ k, k < 16 ∧ c.keys k = 1) →
        ∃ k, k < 16 ∧ c.keys k = 1 ∧ (∀ j, j < k → c.keys j ≠ 1) ∧
          dispatch rnd { c with pc := c.pc + 2 } op 0xF000 nnn 0x0A x y n =
            .ok { c with pc := c.pc + 2, v := setAt c.v x k })) := by
  obtain ⟨d1, d2, d3⟩ := decode_Fx0A x hx
  have hp0 : c.pc < 4096 := by omega
  have hp1 : (c.pc + 1) % 65536 = c.pc + 1 := by omega
  have hp2 : (c.pc + 2) % 65536 = c.pc + 2 := by omega
  have hp3 : (c.pc + 2 + 65536 - 2) % 65536 = c.pc := by omega
  have hstep : step rnd c = loadRegKey { c with pc := c.pc + 2 } x := by
    simp only [step, feetch, readMem, hp0, hp1, hpc, if_true, hhi, hlo, hp2, bind, Except.bind,
      execute, hexa, d1, d2, d3]
    simp [dispatch]
  have hdis : ∀ op nnn y n,
      dispatch rnd { c with pc := c.pc + 2 } op 0xF000 nnn 0x0A x y n =
        loadRegKey { c with pc := c.pc + 2 } x := by
    intro op nnn y n
    simp [dispatch]
  have hA : (∀ k, k < 16 → c.keys k ≠ 1) → loadRegKey { c with pc := c.pc + 2 } x = .ok c := by
    intro hno
    have hnone : pressedAnyKey { c with pc := c.pc + 2 } = 0xff :=
      firstPressed_none c.keys 16 0 (fun j _ h2 => hno j (by omega))
    rw [loadRegKey, if_pos hnone]
    simp only [hp3]
  have hB : (∃ k, k < 16 ∧ c.keys k = 1) →
      ∃ k, k < 16 ∧ c.keys k = 1 ∧ (∀ j, j < k → c.keys j ≠ 1) ∧
        loadRegKey { c with pc := c.pc + 2 } x =
          .ok { c with pc := c.pc + 2, v := setAt c.v x k } := by
    rintro ⟨k, hk, hk1⟩
    obtain ⟨r, _, r2, r3, r4, r5⟩ := firstPressed_some c.keys 16 0 ⟨k, by omega, by omega, hk1⟩
    have hsome : pressedAnyKey { c with pc := c.pc + 2 } = r := r5
    have hne : ¬ r = 0xff := by omega
    refine ⟨r, by omega, r3, fun j hj => r4 j (by omega) hj, ?_⟩
    rw [loadRegKey, hsome, if_neg hne]
    simp only [writeV, hx, if_true]
  refine ⟨?_, ?_, fun op nnn y n => ⟨?_, ?_⟩⟩
  · rw [hstep]
    exact hA
  · rw [hstep]
    exact hB
  · rw [hdis]
    exact hA
  · rw [hdis]
    exact hB

/-- An instance of C5: on `keyWaitState` (opcode `F30A`, keys 5 and 9 pressed) the step sets
`V3 = 5` and moves `PC` from `0x200` to `0x202`; with the keys released the step returns the
state unchanged. -/
theorem step_Fx0A_witness :
    (∃ c', step 0 keyWaitState = .ok c' ∧ c'.v 3 = 5 ∧ c'.pc = 0x202) ∧
    step 0 { keyWaitState with keys := fun _ => 0 } = .ok { keyWaitState with keys := fun _ => 0 } := by
  constructor
  · obtain ⟨k, hk, hk1, hmin, hs⟩ := (step_Fx0A 0 keyWaitState 3 (by decide) (by decide)
      (by decide) (by decide)).2.1 ⟨5, by decide, by decide⟩
    have h5 : k = 5 := by
      by_contra hne
      have hlt : k < 5 ∨ 5 < k := by omega
      rcases hlt with h | h
      · have : keyWaitState.keys k = 0 := by
          simp only [keyWaitState]
          rw [if_neg (by omega), if_neg (by omega)]
        omega
      · exact hmin 5 h (by decide)
    subst h5
    exact ⟨_, hs, by simp, rfl⟩
  · exact (step_Fx0A 0 { keyWaitState with keys := fun _ => 0 } 3 (by decide) (by decide)
      (by decide) (by decide)).1 (fun k _ => by simp)

/-! ## Index safety of a step -/

/-- C4, refuted as stated: after the completed step `6020` of `keyProbeProgram` the reachable
state has `V0 = 0x20`, and its next step, `E09E`, indexes `keys[0x20]`: out of range.  Both
steps run `execute`, which switches on `hexa` as modelled from the specification (the source
declares no `hexa`); the last part runs the switch itself on that state after the fetch, with
the switch variable given as `0xE000` and the operands of `E09E`. -/
theorem step_index_counterexample :
    ∃ c, Reachable c ∧ step 0 c = .error .indexOutOfRange ∧
      dispatch 0 { c with pc := c.pc + 2 } 0xE09E 0xE000 0x09E 0x9E 0 9 0xE =
        .error .indexOutOfRange := by
  have h0 : Reachable (newChip8 keyProbeProgram) :=
    Reachable.fresh keyProbeProgram (by decide) (by decide)
  have h1 : step 0 (newChip8 keyProbeProgram) =
      .ok { newChip8 keyProbeProgram with pc := 0x202, v := setAt (fun _ => 0) 0 0x20 } := rfl
  exact ⟨_, Reachable.stepped 0 _ _ h0 h1, rfl, rfl⟩

theorem decode_x_lt (nnn : Nat) : ((nnn >>> 8) &&& 0xF) % 256 < 16 := by
  have := @Nat.and_le_right (nnn >>> 8) 0xF
  omega

theorem decode_y_lt (nnn : Nat) : ((nnn >>> 4) &&& 0xF) % 256 < 16 := by
  have := @Nat.and_le_right (nnn >>> 4) 0xF
  omega

theorem returnFromSubroutine_inRange (c : Chip8) (h : (c.sp + 1) % 256 < 0x10) :
    returnFromSubroutine c ≠ .error .indexOutOfRange := by
  simp [returnFromSubroutine, popStack, readStack, h, bind, Except.bind]

theorem callSubroutine_inRange (c : Chip8) (nnn : Nat) (h : c.sp < 0x10) :
    callSubroutine c nnn ≠ .error .indexOutOfRange := by
  simp [callSubroutine, pushStak, writeStack, h, bind, Except.bind]

theorem skip_inRange (c : Chip8) (x y nn : Nat) (hx : x < 16) (hy : y < 16) :
    seByte c x nn ≠ .error .indexOutOfRange ∧ sneByte c x nn ≠ .error .indexOutOfRange ∧
    seRegister c x y ≠ .error .indexOutOfRange ∧ sneReg c x y ≠ .error .indexOutOfRange := by
  refine ⟨?_, ?_, ?_, ?_⟩
  · simp only [seByte, readV, hx, if_true, bind, Except.bind]; split_ifs <;> simp
  · simp only [sneByte, readV, hx, if_true, bind, Except.bind]; split_ifs <;> simp
  · simp only [seRegister, readV, hx, hy, if_true, bind, Except.bind]; split_ifs <;> simp
  · simp only [sneReg, readV, hx, hy, if_true, bind, Except.bind]; split_ifs <;> simp

theorem alu_inRange (rnd : Nat) (c : Chip8) (x y nn : Nat) (hx : x < 16) (hy : y < 16) :
    loadByte c x nn ≠ .error .indexOutOfRange ∧ addByte c x nn ≠ .error .indexOutOfRange ∧
    loadReg c x y ≠ .error .indexOutOfRange ∧ orReg c x y ≠ .error .indexOutOfRange ∧
    andReg c x y ≠ .error .indexOutOfRange ∧ xorReg c x y ≠ .error .indexOutOfRange ∧
    addReg c x y ≠ .error .indexOutOfRange ∧ subReg c x y ≠ .error .indexOutOfRange ∧
    shiftRight c x ≠ .error .indexOutOfRange ∧ subnReg c x y ≠ .error .indexOutOfRange ∧
    shiftLeft c x ≠ .error .indexOutOfRange ∧ random rnd c x nn ≠ .error .indexOutOfRange := by
  refine ⟨?_, ?_, ?_, ?_, ?_, ?_, ?_, ?_, ?_, ?_, ?_, ?_⟩ <;>
    simp [loadByte, addByte, loadReg, orReg, andReg, xorReg, addReg, subReg, shiftRight, subnReg,
      shiftLeft, random, readV, writeV, updateCarryFlag_eq, hx, hy, bind, Except.bind]

theorem misc_inRange (c : Chip8) (x nnn : Nat) (hx : x < 16) :
    jumpV0 c nnn ≠ .error .indexOutOfRange ∧ loadRegDelay c x ≠ .error .indexOutOfRange ∧
    loadRegKey c x ≠ .error .indexOutOfRange ∧ loadDt c x ≠ .error .indexOutOfRange ∧
    loadSt c x ≠ .error .indexOutOfRange ∧ addI c x ≠ .error .indexOutOfRange ∧
    loadSprite c x ≠ .error .indexOutOfRange := by
  refine ⟨?_, ?_, ?_, ?_, ?_, ?_, ?_⟩
  · simp [jumpV0, readV, bind, Except.bind]
  · simp [loadRegDelay, writeV, hx]
  · simp only [loadRegKey, writeV, hx, if_true]; split_ifs <;> simp
  · simp [loadDt, readV, hx, bind, Except.bind]
  · simp [loadSt, readV, hx, bind, Except.bind]
  · simp [addI, readV, hx, bind, Except.bind]
  · simp [loadSprite, readV, hx, bind, Except.bind]

theorem skipKey_inRange (c : Chip8) (x : Nat) (hx : x < 16) (hk : c.v x < 0x10) :
    skipKp c x ≠ .error .indexOutOfRange ∧ skipNkp c x ≠ .error .indexOutOfRange := by
  constructor
  · simp only [skipKp, readV, readKey, hx, hk, if_true, bind, Except.bind]; split_ifs <;> simp
  · simp only [skipNkp, readV, readKey, hx, hk, if_true, bind, Except.bind]; split_ifs <;> simp

theorem loadBCD_inRange (c : Chip8) (x : Nat) (hx : x < 16)
    (h : c.i % 65536 < 0x1000 ∧ (c.i + 1) % 65536 < 0x1000 ∧ (c.i + 2) % 65536 < 0x1000) :
    loadBCD c x ≠ .error .indexOutOfRange := by
  obtain ⟨h0, h1, h2⟩ := h
  simp [loadBCD, readV, writeMem, hx, h0, h1, h2, bind, Except.bind]

theorem copy_inRange (c : Chip8) (x : Nat) (hx : x < 16) (h : c.i ≤ 0x1000) :
    loadRegMem c x ≠ .error .indexOutOfRange ∧ loadMemReg c x ≠ .error .indexOutOfRange := by
  have hk : (x + 1) % 256 ≤ 0x10 := by omega
  constructor
  · simp [loadRegMem, h, hk]
  · simp [loadMemReg, h, hk]

theorem draw_inRange (c : Chip8) (x y n : Nat) (hx : x < 16) (hy : y < 16)
    (h : spriteInRange c (c.v x) (c.v y) n) : draw c x y n ≠ .error .indexOutOfRange := by
  obtain ⟨c', hc'⟩ := (draw_ok_iff c x y n hx hy).mpr h
  rw [hc']
  simp

theorem execute_eq_dispatch (rnd : Nat) (c : Chip8) (op : Nat) :
    execute rnd c op =
      dispatch rnd c op (op &&& 0xF000) (op &&& 0x0FFF) (((op &&& 0x0FFF) &&& 0xFF) % 256)
        ((((op &&& 0x0FFF) >>> 8) &&& 0xF) % 256) ((((op &&& 0x0FFF) >>> 4) &&& 0xF) % 256)
        ((((op &&& 0x0FFF) &&& 0xFF) % 256) &&& 0x0f) := rfl

theorem ite_ne_of {α : Type} (p : Prop) [Decidable p] (a b r : α)
    (ha : p → a ≠ r) (hb : ¬ p → b ≠ r) : (if p then a else b) ≠ r := by
  by_cases h : p
  · rw [if_pos h]; exact ha h
  · rw [if_neg h]; exact hb h

theorem step_eq_dispatch (rnd : Nat) (c : Chip8) (hpc : c.pc + 1 < 0x1000) :
    step rnd c =
      dispatch rnd { c with pc := (c.pc + 2) % 65536 } (opcodeAt c) (opcodeAt c &&& 0xF000)
        (opcodeAt c &&& 0x0FFF) (((opcodeAt c &&& 0x0FFF) &&& 0xFF) % 256)
        ((((opcodeAt c &&& 0x0FFF) >>> 8) &&& 0xF) % 256)
        ((((opcodeAt c &&& 0x0FFF) >>> 4) &&& 0xF) % 256)
        ((((opcodeAt c &&& 0x0FFF) &&& 0xFF) % 256) &&& 0x0f) := by
  have hp0 : c.pc < 0x1000 := by omega
  have hp1 : (c.pc + 1) % 65536 < 0x1000 := by omega
  have hfetch : step rnd c = execute rnd { c with pc := (c.pc + 2) % 65536 } (opcodeAt c) := by
    simp only [step, feetch, readMem, hp0, hp1, if_true, bind, Except.bind, opcodeAt]
  rw [hfetch, execute_eq_dispatch]

theorem step_fetch_out_of_range (rnd : Nat) (c : Chip8) (hpc : ¬ c.pc + 1 < 0x1000) :
    step rnd c = .error .indexOutOfRange := by
  by_cases hp0 : c.pc < 0x1000
  · have hp1 : ¬ (c.pc + 1) % 65536 < 0x1000 := by omega
    simp only [step, feetch, readMem, hp0, hp1, if_true, if_false, bind, Except.bind]
  · simp only [step, feetch, readMem, hp0, if_false, bind, Except.bind]

theorem dispatch_return {rnd : Nat} {c : Chip8} {op hexa nnn nn x y n : Nat}
    (h : op = 0x00EE) (hh : hexa = 0x0000) :
    dispatch rnd c op hexa nnn nn x y n = returnFromSubroutine c := by
  subst h hh; rfl

theorem dispatch_call {rnd : Nat} {c : Chip8} {op hexa nnn nn x y n : Nat}
    (hh : hexa = 0x2000) : dispatch rnd c op hexa nnn nn x y n = callSubroutine c nnn := by
  subst hh; rfl

theorem dispatch_draw {rnd : Nat} {c : Chip8} {op hexa nnn nn x y n : Nat}
    (hh : hexa = 0xD000) : dispatch rnd c op hexa nnn nn x y n = draw c x y n := by
  subst hh; rfl

theorem dispatch_skipKp {rnd : Nat} {c : Chip8} {op hexa nnn nn x y n : Nat}
    (hh : hexa = 0xE000) (h : nn = 0x9E) :
    dispatch rnd c op hexa nnn nn x y n = skipKp c x := by
  subst hh h; rfl

theorem dispatch_skipNkp {rnd : Nat} {c : Chip8} {op hexa nnn nn x y n : Nat}
    (hh : hexa = 0xE000) (h : nn = 0xA1) :
    dispatch rnd c op hexa nnn nn x y n = skipNkp c x := by
  subst hh h; rfl

theorem dispatch_loadBCD {rnd : Nat} {c : Chip8} {op hexa nnn nn x y n : Nat}
    (hh : hexa = 0xF000) (h : nn = 0x33) :
    dispatch rnd c op hexa nnn nn x y n = loadBCD c x := by
  subst hh h; rfl

theorem dispatch_loadRegMem {rnd : Nat} {c : Chip8} {op hexa nnn nn x y n : Nat}
    (hh : hexa = 0xF000) (h : nn = 0x55) :
    dispatch rnd c op hexa nnn nn x y n = loadRegMem c x := by
  subst hh h; rfl

theorem dispatch_loadMemReg {rnd : Nat} {c : Chip8} {op hexa nnn nn x y n : Nat}
    (hh : hexa = 0xF000) (h : nn = 0x65) :
    dispatch rnd c op hexa nnn nn x y n = loadMemReg c x := by
  subst hh h; rfl

/-- With an operand of the instruction at `PC` out of range, `step` ends in the index panic. -/
theorem step_panic (rnd : Nat) (c : Chip8) (h : ¬ operandsInRange c) :
    step rnd c = .error .indexOutOfRange := by
  by_cases hpc : c.pc + 1 < 0x1000
  swap
  · exact step_fetch_out_of_range rnd c hpc
  rw [step_eq_dispatch rnd c hpc]
  have hx := decode_x_lt (opcodeAt c &&& 0x0FFF)
  have hy := decode_y_lt (opcodeAt c &&& 0x0FFF)
  by_cases hret : opcodeAt c = 0x00EE → (c.sp + 1) % 256 < 0x10
  swap
  · push_neg at hret
    obtain ⟨h1, h2⟩ := hret
    have hh : opcodeAt c &&& 0xF000 = 0x0000 := by rw [h1]; decide
    have h3 : ¬ (c.sp + 1) % 256 < 16 := by omega
    rw [dispatch_return h1 hh]
    simp [returnFromSubroutine, popStack, readStack, h3, bind, Except.bind]
  by_cases hcall : opcodeAt c &&& 0xF000 = 0x2000 → c.sp < 0x10
  swap
  · push_neg at hcall
    obtain ⟨h1, h2⟩ := hcall
    have h3 : ¬ c.sp < 16 := by omega
    rw [dispatch_call h1]
    simp [callSubroutine, pushStak, writeStack, h3, bind, Except.bind]
  by_cases hdraw : opcodeAt c &&& 0xF000 = 0xD000 →
    spriteInRange c (c.v ((((opcodeAt c &&& 0x0FFF) >>> 8) &&& 0xF) % 256))
      (c.v ((((opcodeAt c &&& 0x0FFF) >>> 4) &&& 0xF) % 256))
      ((((opcodeAt c &&& 0x0FFF) &&& 0xFF) % 256) &&& 0x0f)
  swap
  · push_neg at hdraw
    obtain ⟨h1, h2⟩ := hdraw
    rw [dispatch_draw h1]
    exact draw_out_of_range { c with pc := (c.pc + 2) % 65536 } _ _ _ hx hy h2
  by_cases hkey : opcodeAt c &&& 0xF000 = 0xE000 →
    ((opcodeAt c &&& 0x0FFF) &&& 0xFF) % 256 = 0x9E ∨
      ((opcodeAt c &&& 0x0FFF) &&& 0xFF) % 256 = 0xA1 →
    c.v ((((opcodeAt c &&& 0x0FFF) >>> 8) &&& 0xF) % 256) < 0x10
  swap
  · push_neg at hkey
    obtain ⟨h1, h2, h3⟩ := hkey
    have h4 : ¬ c.v ((((opcodeAt c &&& 0x0FFF) >>> 8) &&& 0xF) % 256) < 16 := by omega
    rcases h2 with h2 | h2
    · rw [dispatch_skipKp h1 h2]
      simp [skipKp, readV, readKey, hx, h4, bind, Except.bind]
    · rw [dispatch_skipNkp h1 h2]
      simp [skipNkp, readV, readKey, hx, h4, bind, Except.bind]
  by_cases hbcd : opcodeAt c &&& 0xF000 = 0xF000 →
    ((opcodeAt c &&& 0x0FFF) &&& 0xFF) % 256 = 0x33 →
    c.i % 65536 < 0x1000 ∧ (c.i + 1) % 65536 < 0x1000 ∧ (c.i + 2) % 65536 < 0x1000
  swap
  · push_neg at hbcd
    obtain ⟨h1, h2, h3⟩ := hbcd
    rw [dispatch_loadBCD h1 h2]
    by_cases b0 : c.i % 65536 < 0x1000
    · by_cases b1 : (c.i + 1) % 65536 < 0x1000
      · have b2 : ¬ (c.i + 2) % 65536 < 4096 := by have := h3 b0 b1; omega
        simp [loadBCD, readV, writeMem, hx, b0, b1, b2, bind, Except.bind]
      · simp [loadBCD, readV, writeMem, hx, b0, b1, bind, Except.bind]
    · simp [loadBCD, readV, writeMem, hx, b0, bind, Except.bind]
  by_cases hcopy : opcodeAt c &&& 0xF000 = 0xF000 →
    ((opcodeAt c &&& 0x0FFF) &&& 0xFF) % 256 = 0x55 ∨
      ((opcodeAt c &&& 0x0FFF) &&& 0xFF) % 256 = 0x65 →
    c.i ≤ 0x1000
  swap
  · push_neg at hcopy
    obtain ⟨h1, h2, h3⟩ := hcopy
    have h4 : ¬ c.i ≤ 4096 := by omega
    rcases h2 with h2 | h2
    · rw [dispatch_loadRegMem h1 h2]
      simp [loadRegMem, h4]
    · rw [dispatch_loadMemReg h1 h2]
      simp [loadMemReg, h4]
  exact absurd ⟨hpc, hret, hcall, hdraw, hkey, hbcd, hcopy⟩ h

/-- Whatever the value of the switch variable, the switch of `execute` performs no out-of-range
array access when the operands of the branch it selects are in range. -/
theorem dispatch_inRange (rnd : Nat) (s : Chip8) (op hexa nnn nn x y n : Nat)
    (hx : x < 16) (hy : y < 16)
    (hret : op = 0x00EE → (s.sp + 1) % 256 < 0x10)
    (hcall : hexa = 0x2000 → s.sp < 0x10)
    (hdraw : hexa = 0xD000 → spriteInRange s (s.v x) (s.v y) n)
    (hkey : hexa = 0xE000 → nn = 0x9E ∨ nn = 0xA1 → s.v x < 0x10)
    (hbcd : hexa = 0xF000 → nn = 0x33 →
      s.i % 65536 < 0x1000 ∧ (s.i + 1) % 65536 < 0x1000 ∧ (s.i + 2) % 65536 < 0x1000)
    (hcopy : hexa = 0xF000 → nn = 0x55 ∨ nn = 0x65 → s.i ≤ 0x1000) :
    dispatch rnd s op hexa nnn nn x y n ≠ .error .indexOutOfRange := by
  have g1 : op = 0x00EE → returnFromSubroutine s ≠ .error .indexOutOfRange :=
    fun h => returnFromSubroutine_inRange _ (hret h)
  have g2 : hexa = 0x2000 → callSubroutine s nnn ≠ .error .indexOutOfRange :=
    fun h => callSubroutine_inRange _ _ (hcall h)
  have g3 : hexa = 0xD000 → draw s x y n ≠ .error .indexOutOfRange :=
    fun h => draw_inRange _ _ _ _ hx hy (hdraw h)
  have g4 : hexa = 0xE000 → nn = 0x9E → skipKp s x ≠ .error .indexOutOfRange :=
    fun h h2 => (skipKey_inRange s x hx (hkey h (Or.inl h2))).1
  have g5 : hexa = 0xE000 → nn = 0xA1 → skipNkp s x ≠ .error .indexOutOfRange :=
    fun h h2 => (skipKey_inRange s x hx (hkey h (Or.inr h2))).2
  have g6 : hexa = 0xF000 → nn = 0x33 → loadBCD s x ≠ .error .indexOutOfRange :=
    fun h h2 => loadBCD_inRange _ _ hx (hbcd h h2)
  have g7 : hexa = 0xF000 → nn = 0x55 → loadRegMem s x ≠ .error .indexOutOfRange :=
    fun h h2 => (copy_inRange s x hx (hcopy h (Or.inl h2))).1
  have g8 : hexa = 0xF000 → nn = 0x65 → loadMemReg s x ≠ .error .indexOutOfRange :=
    fun h h2 => (copy_inRange s x hx (hcopy h (Or.inr h2))).2
  unfold dispatch
  repeat' (with_reducible refine ite_ne_of _ _ _ _ (fun _ => ?_) (fun _ => ?_))
  all_goals with_reducible first
    | exact g1 ‹_›
    | exact g2 ‹_›
    | exact g3 ‹_›
    | exact g4 ‹_› ‹_›
    | exact g5 ‹_› ‹_›
    | exact g6 ‹_› ‹_›
    | exact g7 ‹_› ‹_›
    | exact g8 ‹_› ‹_›
    | exact (skip_inRange _ x y nn hx hy).1
    | exact (skip_inRange _ x y nn hx hy).2.1
    | exact (skip_inRange _ x y nn hx hy).2.2.1
    | exact (skip_inRange _ x y nn hx hy).2.2.2
    | exact (alu_inRange rnd _ x y nn hx hy).1
    | exact (alu_inRange rnd _ x y nn hx hy).2.1
    | exact (alu_inRange rnd _ x y nn hx hy).2.2.1
    | exact (alu_inRange rnd _ x y nn hx hy).2.2.2.1
    | exact (alu_inRange rnd _ x y nn hx hy).2.2.2.2.1
    | exact (alu_inRange rnd _ x y nn hx hy).2.2.2.2.2.1
    | exact (alu_inRange rnd _ x y nn hx hy).2.2.2.2.2.2.1
    | exact (alu_inRange rnd _ x y nn hx hy).2.2.2.2.2.2.2.1
    | exact (alu_inRange rnd _ x y nn hx hy).2.2.2.2.2.2.2.2.1
    | exact (alu_inRange rnd _ x y nn hx hy).2.2.2.2.2.2.2.2.2.1
    | exact (alu_inRange rnd _ x y nn hx hy).2.2.2.2.2.2.2.2.2.2.1
    | exact (alu_inRange rnd _ x y nn hx hy).2.2.2.2.2.2.2.2.2.2.2
    | exact (misc_inRange _ x nnn hx).1
    | exact (misc_inRange _ x nnn hx).2.1
    | exact (misc_inRange _ x nnn hx).2.2.1
    | exact (misc_inRange _ x nnn hx).2.2.2.1
    | exact (misc_inRange _ x nnn hx).2.2.2.2.1
    | exact (misc_inRange _ x nnn hx).2.2.2.2.2.1
    | exact (misc_inRange _ x nnn hx).2.2.2.2.2.2
    | exact fun h => Except.noConfusion h
    | exact fun h => Fault.noConfusion (Except.error.inj h)

/-- C4, amended: for every state (hence every reachable one) the next `step` performs an
out-of-range array access exactly when an operand of the instruction at `PC` is out of range:
with the operands in range it completes or takes the fatal path of `0nnn`, otherwise it ends in
the index panic.  Register indices are 4-bit fields and the display index is guarded by the
clipping test, so the registers and the display contribute no condition.  Here `step` runs
`execute`, which switches on `hexa` as modelled from the specification (the source declares no
`hexa`); the last part does not depend on that reading: whatever value the switch variable has,
the switch performs no out-of-range access when the operands of the branch that value selects
are in range. -/
theorem step_in_range (rnd : Nat) (c : Chip8) :
    (operandsInRange c → step rnd c ≠ .error .indexOutOfRange) ∧
    (¬ operandsInRange c → step rnd c = .error .indexOutOfRange) ∧
    (∀ s op h nnn nn x y n, x < 16 → y < 16 →
      (op = 0x00EE → (s.sp + 1) % 256 < 0x10) →
      (h = 0x2000 → s.sp < 0x10) →
      (h = 0xD000 → spriteInRange s (s.v x) (s.v y) n) →
      (h = 0xE000 → nn = 0x9E ∨ nn = 0xA1 → s.v x < 0x10) →
      (h = 0xF000 → nn = 0x33 →
        s.i % 65536 < 0x1000 ∧ (s.i + 1) % 65536 < 0x1000 ∧ (s.i + 2) % 65536 < 0x1000) →
      (h = 0xF000 → nn = 0x55 ∨ nn = 0x65 → s.i ≤ 0x1000) →
      dispatch rnd s op h nnn nn x y n ≠ .error .indexOutOfRange) := by
  refine ⟨fun h => ?_, step_panic rnd c, ?_⟩
  · obtain ⟨hpc, hret, hcall, hdraw, hkey, hbcd, hcopy⟩ := h
    rw [step_eq_dispatch rnd c hpc]
    exact dispatch_inRange rnd _ _ _ _ _ _ _ _ (decode_x_lt _) (decode_y_lt _) hret hcall hdraw
      hkey hbcd hcopy
  · intro s op h nnn nn x y n hx hy hret hcall hdraw hkey hbcd hcopy
    exact dispatch_inRange rnd s op h nnn nn x y n hx hy hret hcall hdraw hkey hbcd hcopy

/-- An instance of the amended C4: on `drawStepState` (opcode `D012`, two sprite rows at
`I = 0x300`) the operands are in range and the step does not fault on an index. -/
theorem step_in_range_witness :
    operandsInRange drawStepState ∧ step 0 drawStepState ≠ .error .indexOutOfRange := by
  have h : operandsInRange drawStepState := by decide
  exact ⟨h, (step_in_range 0 drawStepState).1 h⟩

/-! ## Memory instructions: BCD, register save and restore -/

/-- C12: for every register index `x`, every byte value of `Vx` and every `I` with
`I + 2 ≤ 0xFFF`, `loadBCD x` completes; `memory[I]`, `memory[I+1]`, `memory[I+2]` are the
hundreds, tens and ones digit of `Vx`, each in `0..9`, with
`100 * memory[I] + 10 * memory[I+1] + memory[I+2] = Vx`; no other memory cell, no register and
not `I` changes. -/
theorem loadBCD_digits (c : Chip8) (x : Nat) (hx : x < 16) (hv : c.v x < 256)
    (hI : c.i + 2 ≤ 0xFFF) :
    ∃ c', loadBCD c x = .ok c' ∧
      c'.memory c.i = c.v x / 100 ∧ c'.memory (c.i + 1) = c.v x % 100 / 10 ∧
      c'.memory (c.i + 2) = c.v x % 10 ∧
      c'.memory c.i ≤ 9 ∧ c'.memory (c.i + 1) ≤ 9 ∧ c'.memory (c.i + 2) ≤ 9 ∧
      100 * c'.memory c.i + 10 * c'.memory (c.i + 1) + c'.memory (c.i + 2) = c.v x ∧
      (∀ a, a ≠ c.i → a ≠ c.i + 1 → a ≠ c.i + 2 → c'.memory a = c.memory a) ∧
      c' = { c with memory := c'.memory } := by
  have h0 : (c.i + 0) % 65536 = c.i := by omega
  have h1 : (c.i + 1) % 65536 = c.i + 1 := by omega
  have h2 : (c.i + 2) % 65536 = c.i + 2 := by omega
  have b0 : c.i < 4096 := by omega
  have b1 : c.i + 1 < 4096 := by omega
  have b2 : c.i + 2 < 4096 := by omega
  refine ⟨{ c with memory := setAt (setAt (setAt c.memory c.i (c.v x / 100)) (c.i + 1)
      (c.v x % 100 / 10)) (c.i + 2) (c.v x % 10) }, ?_, ?_, ?_, ?_, ?_, ?_, ?_, ?_, ?_, rfl⟩
  · simp only [loadBCD, readV, writeMem, hx, if_true, h0, h1, h2, b0, b1, b2, bind,
      Except.bind]
  · simp [setAt_apply]
  · simp [setAt_apply]
  · simp [setAt_apply]
  · simp only [setAt_apply]; simp; omega
  · simp only [setAt_apply]; simp; omega
  · simp only [setAt_apply]; simp; omega
  · simp only [setAt_apply]; simp; omega
  · intro a a0 a1 a2
    simp [setAt_apply, a0, a1, a2]

/-- The example of C12: `Vx = 234` (here `x = 2`, `I = 0x300`) writes 2, 3, 4. -/
theorem loadBCD_digits_witness :
    ∃ c', loadBCD bcdState 2 = .ok c' ∧
      c'.memory 0x300 = 2 ∧ c'.memory 0x301 = 3 ∧ c'.memory 0x302 = 4 := by
  obtain ⟨c', h, d0, d1, d2, _⟩ :=
    loadBCD_digits bcdState 2 (by decide) (by decide) (by decide)
  exact ⟨c', h, d0, d1, d2⟩

/-- C13: for every register index `x` and every `I` with `I + x ≤ 0xFFF`: `loadRegMem x`
completes, sets `memory[I + k] = Vk` for every `k ≤ x` and changes no other memory cell, no
register and not `I`; `loadMemReg x` completes, sets `Vk = memory[I + k]` for every `k ≤ x` and
changes no register above `Vx`, no memory and not `I`; and `loadMemReg x` run on any state that
has the memory left by `loadRegMem x` and the same `I` (the registers being arbitrary) gives
back the saved `V0..Vx`. -/
theorem save_restore_registers (c : Chip8) (x : Nat) (hx : x < 16) (hI : c.i + x ≤ 0xFFF) :
    (∃ c1, loadRegMem c x = .ok c1 ∧
      (∀ k, k ≤ x → c1.memory (c.i + k) = c.v k) ∧
      (∀ a, a < c.i ∨ c.i + x < a → c1.memory a = c.memory a) ∧
      c1 = { c with memory := c1.memory } ∧
      ∀ t : Chip8, t.memory = c1.memory → t.i = c.i →
        ∃ c2, loadMemReg t x = .ok c2 ∧ ∀ k, k ≤ x → c2.v k = c.v k) ∧
    (∃ c2, loadMemReg c x = .ok c2 ∧
      (∀ k, k ≤ x → c2.v k = c.memory (c.i + k)) ∧
      (∀ k, x < k → c2.v k = c.v k) ∧
      c2 = { c with v := c2.v }) := by
  have hk : (x + 1) % 256 = x + 1 := by omega
  have hk16 : x + 1 ≤ 16 := by omega
  have hi : c.i ≤ 4096 := by omega
  have hcnt : min (4096 - c.i) (x + 1) = x + 1 := by omega
  have hcnt2 : min (x + 1) (4096 - c.i) = x + 1 := by omega
  constructor
  · refine ⟨{ c with memory := fun a =>
        if c.i ≤ a ∧ a < c.i + (x + 1) then c.v (a - c.i) else c.memory a }, ?_, ?_, ?_, rfl, ?_⟩
    · simp only [loadRegMem, hk, hk16, hi, and_self, if_true, hcnt]
    · intro k hkx
      have e : c.i + k - c.i = k := by omega
      simp only []
      rw [if_pos (by omega), e]
    · intro a ha
      simp only []
      rw [if_neg (by omega)]
    · intro t hmem hti
      have hti2 : t.i ≤ 4096 := by omega
      have hcnt3 : min (x + 1) (4096 - t.i) = x + 1 := by omega
      refine ⟨{ t with v := fun j => if j < x + 1 then t.memory (t.i + j) else t.v j }, ?_, ?_⟩
      · simp only [loadMemReg, hk, hk16, hti2, and_self, if_true, hcnt3]
      · intro k hkx
        have e : c.i + k - c.i = k := by omega
        simp only []
        rw [if_pos (by omega), hmem, hti]
        simp only []
        rw [if_pos (by omega), e]
  · refine ⟨{ c with v := fun j => if j < x + 1 then c.memory (c.i + j) else c.v j }, ?_, ?_, ?_,
      rfl⟩
    · simp only [loadMemReg, hk, hk16, hi, and_self, if_true, hcnt2]
    · intro k hkx
      simp only []
      rw [if_pos (by omega)]
    · intro k hkx
      simp only []
      rw [if_neg (by omega)]

/-- An instance of C13 at the end of memory: `V0..V2 = 7, 8, 9` saved at `I = 0xFFD` fill the
cells `0xFFD..0xFFF`, and restoring into a state whose registers were all cleared gives
`7, 8, 9` back. -/
theorem save_restore_registers_witness :
    ∃ c1, loadRegMem saveState 2 = .ok c1 ∧
      c1.memory 0xFFD = 7 ∧ c1.memory 0xFFE = 8 ∧ c1.memory 0xFFF = 9 ∧
      ∃ c2, loadMemReg { c1 with v := fun _ => 0 } 2 = .ok c2 ∧
        c2.v 0 = 7 ∧ c2.v 1 = 8 ∧ c2.v 2 = 9 := by
  obtain ⟨⟨c1, h1, hm, _, hfr, hback⟩, _⟩ :=
    save_restore_registers saveState 2 (by decide) (by decide)
  have hi1 : c1.i = saveState.i := by rw [hfr]
  obtain ⟨c2, h2, hv⟩ := hback { c1 with v := fun _ => 0 } rfl hi1
  exact ⟨c1, h1, hm 0 (by decide), hm 1 (by decide), hm 2 (by decide), c2, h2,
    hv 0 (by decide), hv 1 (by decide), hv 2 (by decide)⟩

/-! ## Construction and timers -/

/-- The memory image built by `newChip8`, cell by cell. -/
theorem newChip8_memory (b : List Nat) (a : Nat) :
    (newChip8 b).memory a =
      if 0x100 ≤ a ∧ a < 0x150 then characterSprites.getD (a - 0x100) 0
      else if 0x200 ≤ a ∧ a < 0x200 + min b.length 3584 then b.getD (a - 0x200) 0
      else 0 := by
  have hlen : characterSprites.length = 80 := rfl
  have h1 : (0x100 ≤ a ∧ a < 0x100 + min (0x1000 - 0x100) characterSprites.length) ↔
      (0x100 ≤ a ∧ a < 0x150) := by
    rw [hlen]; omega
  have h2 : (0x200 ≤ a ∧ a < 0x200 + min (0x1000 - 0x200) b.length) ↔
      (0x200 ≤ a ∧ a < 0x200 + min b.length 3584) := by
    omega
  simp only [newChip8, copyBytes, zeroChip8, h1, h2]

/-- C14: for every program image `b`, of any length, `newChip8 b` has `PC = 0x200`,
`SP = 0x0F`, all registers, `I`, both timers, all keys, all stack slots and all display cells
zero; `memory[0x100 + 5*d + j]` is byte `j` of the glyph of the hex digit `d`;
`memory[0x200 + k] = b[k]` for every `k < min (len b) 3584`; every other memory cell is zero;
and the memory below `0x200` does not depend on the image. -/
theorem newChip8_spec (b : List Nat) :
    (newChip8 b).pc = 0x200 ∧ (newChip8 b).sp = 0x0F ∧
    (∀ k, (newChip8 b).v k = 0) ∧ (newChip8 b).i = 0 ∧
    (newChip8 b).delayTimer = 0 ∧ (newChip8 b).soundTtimer = 0 ∧
    (∀ k, (newChip8 b).keys k = 0) ∧ (∀ k, (newChip8 b).stack k = 0) ∧
    (∀ k, (newChip8 b).dsp k = 0) ∧
    (∀ d j, d < 16 → j < 5 →
      (newChip8 b).memory (0x100 + 5 * d + j) = characterSprites.getD (5 * d + j) 0) ∧
    (∀ k, k < min b.length 3584 → (newChip8 b).memory (0x200 + k) = b.getD k 0) ∧
    (∀ a, ¬ (0x100 ≤ a ∧ a < 0x150) → ¬ (0x200 ≤ a ∧ a < 0x200 + min b.length 3584) →
      (newChip8 b).memory a = 0) ∧
    (∀ b' a, a < 0x200 → (newChip8 b).memory a = (newChip8 b').memory a) := by
  refine ⟨rfl, rfl, fun _ => rfl, rfl, rfl, rfl, fun _ => rfl, fun _ => rfl, fun _ => rfl,
    ?_, ?_, ?_, ?_⟩
  · intro d j hd hj
    have e : 0x100 + 5 * d + j - 0x100 = 5 * d + j := by omega
    rw [newChip8_memory, if_pos (by omega), e]
  · intro k hk
    have e : 0x200 + k - 0x200 = k := by omega
    rw [newChip8_memory, if_neg (by omega), if_pos (by omega), e]
  · intro a h1 h2
    rw [newChip8_memory, if_neg h1, if_neg h2]
  · intro b' a ha
    rw [newChip8_memory, newChip8_memory]
    by_cases h : 0x100 ≤ a ∧ a < 0x150
    · rw [if_pos h, if_pos h]
    · rw [if_neg h, if_neg h, if_neg (by omega), if_neg (by omega)]

/-- An instance of C14: in the interpreter built from the image `12 34`, the glyph of `F`
starts with `0xF0` at `0x14B`, its last byte `0x80` is at `0x14F`, the image is at
`0x200, 0x201` and the next cell is zero. -/
theorem newChip8_spec_witness :
    (newChip8 [0x12, 0x34]).memory 0x14B = 0xF0 ∧ (newChip8 [0x12, 0x34]).memory 0x14F = 0x80 ∧
    (newChip8 [0x12, 0x34]).memory 0x200 = 0x12 ∧ (newChip8 [0x12, 0x34]).memory 0x201 = 0x34 ∧
    (newChip8 [0x12, 0x34]).memory 0x202 = 0 := by
  obtain ⟨_, _, _, _, _, _, _, _, _, hg, hb, hz, _⟩ := newChip8_spec [0x12, 0x34]
  exact ⟨hg 15 0 (by decide) (by decide), hg 15 4 (by decide) (by decide),
    hb 0 (by decide), hb 1 (by decide), hz 0x202 (by decide) (by decide)⟩

/-- C15: for every state (with byte-valued timers) `decrementTimer` lowers each of the two
timers by one if it is nonzero and leaves it 0 if it is 0 (it does not wrap to 255), each
independently of the other, and changes no other field of the state. -/
theorem decrementTimer_spec (c : Chip8) (hd : c.delayTimer < 256) (hs : c.soundTtimer < 256) :
    decrementTimer c =
      { c with
        delayTimer := (if c.delayTimer = 0 then 0 else c.delayTimer - 1)
        soundTtimer := (if c.soundTtimer = 0 then 0 else c.soundTtimer - 1) } := by
  rcases c with ⟨m, s, v, k, d, i, pc, sp, dt, st⟩
  simp only at hd hs
  by_cases hd0 : dt = 0 <;> by_cases hs0 : st = 0
  · simp [decrementTimer, hd0, hs0]
  · have hs2 : st > 0 := by omega
    have e : (st + 255) % 256 = st - 1 := by omega
    simp [decrementTimer, hd0, hs0, hs2, e]
  · have hd2 : dt > 0 := by omega
    have e : (dt + 255) % 256 = dt - 1 := by omega
    simp [decrementTimer, hd0, hs0, hd2, e]
  · have hd2 : dt > 0 := by omega
    have hs2 : st > 0 := by omega
    have e : (dt + 255) % 256 = dt - 1 := by omega
    have e2 : (st + 255) % 256 = st - 1 := by omega
    simp [decrementTimer, hd0, hs0, hd2, hs2, e, e2]

/-- An instance of C15: with `delayTimer = 0` and `soundTimer = 5` the delay timer stays 0 and
the sound timer becomes 4. -/
theorem decrementTimer_spec_witness :
    (decrementTimer { zeroChip8 with soundTtimer := 5 }).delayTimer = 0 ∧
    (decrementTimer { zeroChip8 with soundTtimer := 5 }).soundTtimer = 4 := by
  rw [decrementTimer_spec { zeroChip8 with soundTtimer := 5 } (by decide) (by decide)]
  exact ⟨rfl, rfl⟩

/-! ## Stack overflow and underflow -/

/-- C11, refuted as stated: in the interpreter built from `recurseProgram` sixteen steps of
`2200` complete and leave `SP = 255`; the seventeenth nested call indexes `stack[255]` and ends
in the index panic.  In the interpreter built from `returnProgram` the first step, `00EE` on the
empty stack, indexes `stack[16]` and ends in the index panic. -/
theorem stack_wrap_counterexample :
    ∃ c, stepN 0 16 (newChip8 recurseProgram) = .ok c ∧ c.sp = 255 ∧
      step 0 c = .error .indexOutOfRange ∧
      step 0 (newChip8 returnProgram) = .error .indexOutOfRange :=
  ⟨_, rfl, rfl, rfl, rfl⟩

theorem callSubroutine_ok (c : Chip8) (nnn : Nat) (hsp : c.sp < 16) :
    callSubroutine c nnn =
      .ok { c with stack := setAt c.stack c.sp c.pc, sp := (c.sp + 256 - 1) % 256, pc := nnn } := by
  simp [callSubroutine, pushStak, writeStack, hsp, bind, Except.bind]

/-- Nested calls that fit into the slots `SP, SP - 1, .., 0` complete and lower `SP` by their
number, modulo 256. -/
theorem callChain_sp (targets : List Nat) :
    ∀ c : Chip8, c.sp < 16 → targets.length ≤ c.sp + 1 →
      ∃ c', callChain targets c = .ok c' ∧ c'.sp = (c.sp + 256 - targets.length) % 256 := by
  induction targets with
  | nil =>
    intro c h1 _
    exact ⟨c, rfl, by simp only [List.length_nil]; omega⟩
  | cons nnn rest ih =>
    intro c h1 h2
    simp only [List.length_cons] at h2
    have hcall := callSubroutine_ok c nnn h1
    cases rest with
    | nil =>
      refine ⟨{ c with stack := setAt c.stack c.sp c.pc, sp := (c.sp + 256 - 1) % 256, pc := nnn },
        by simp only [callChain, hcall, bind, Except.bind], ?_⟩
      simp only [List.length_cons, List.length_nil]
    | cons m rest2 =>
      simp only [List.length_cons] at h2
      obtain ⟨c', hc', hsp'⟩ := ih
        { c with stack := setAt c.stack c.sp c.pc, sp := (c.sp + 256 - 1) % 256, pc := nnn }
        (by simp only []; omega) (by simp only [List.length_cons]; omega)
      refine ⟨c', by simp only [callChain, hcall, bind, Except.bind] at hc' ⊢; exact hc', ?_⟩
      rw [hsp']
      simp only [List.length_cons]
      omega

/-- C11, amended: stack overflow and underflow are not guarded and the stack pointer does not
wrap within the 16-entry stack.  Starting from a state with `SP = 15` (the freshly constructed
one), sixteen nested `2nnn` complete and leave `SP = 255` (the 8-bit stack pointer wraps modulo
256); a seventeenth nested `2nnn` does not complete: it indexes `stack[255]` and ends in the
index panic; and `00EE` on the empty stack indexes `stack[16]` and ends in the index panic. -/
theorem stack_overflow_underflow (c : Chip8) (hsp : c.sp = 0x0F) (targets : List Nat)
    (hlen : targets.length = 16) :
    (∃ c', callChain targets c = .ok c' ∧ c'.sp = 255 ∧
      ∀ nnn, callSubroutine c' nnn = .error .indexOutOfRange) ∧
    returnFromSubroutine c = .error .indexOutOfRange := by
  constructor
  · obtain ⟨c', hc', hsp'⟩ := callChain_sp targets c (by omega) (by omega)
    have h255 : c'.sp = 255 := by rw [hsp', hsp, hlen]
    refine ⟨c', hc', h255, fun nnn => ?_⟩
    simp [callSubroutine, pushStak, writeStack, h255, bind, Except.bind]
  · simp [returnFromSubroutine, popStack, readStack, hsp, bind, Except.bind]

/-- An instance of the amended C11 on the freshly constructed interpreter: sixteen nested calls
of `0x200` leave `SP = 255`, a seventeenth call panics, and so does a return on the empty
stack. -/
theorem stack_overflow_underflow_witness :
    (∃ c', callChain (List.replicate 16 0x200) (newChip8 recurseProgram) = .ok c' ∧
      c'.sp = 255 ∧ callSubroutine c' 0x200 = .error .indexOutOfRange) ∧
    returnFromSubroutine (newChip8 recurseProgram) = .error .indexOutOfRange := by
  obtain ⟨⟨c', h1, h2, h3⟩, h4⟩ := stack_overflow_underflow (newChip8 recurseProgram) rfl
    (List.replicate 16 0x200) (by decide)
  exact ⟨⟨c', h1, h2, h3 0x200⟩, h4⟩

/-! ## Load immediate, then add immediate -/

set_option maxRecDepth 100000 in
/-- The decoding of the opcode words `6xNN` and `7xNN`. -/
theorem decode_6x_7x : ∀ x, x < 16 → ∀ nn, nn < 256 →
    ((((0x60 + x) <<< 8) ||| nn) &&& 0xF000 = 0x6000 ∧
     ((((0x60 + x) <<< 8) ||| nn) &&& 0x0FFF &&& 0xFF) % 256 = nn ∧
     ((((((0x60 + x) <<< 8) ||| nn) &&& 0x0FFF) >>> 8) &&& 0xF) % 256 = x) ∧
    ((((0x70 + x) <<< 8) ||| nn) &&& 0xF000 = 0x7000 ∧
     ((((0x70 + x) <<< 8) ||| nn) &&& 0x0FFF &&& 0xFF) % 256 = nn ∧
     ((((((0x70 + x) <<< 8) ||| nn) &&& 0x0FFF) >>> 8) &&& 0xF) % 256 = x) := by
  decide

theorem dispatch_loadByte {rnd : Nat} {c : Chip8} {op hexa nnn nn x y n : Nat}
    (hh : hexa = 0x6000) : dispatch rnd c op hexa nnn nn x y n = loadByte c x nn := by
  subst hh; rfl

theorem dispatch_addByte {rnd : Nat} {c : Chip8} {op hexa nnn nn x y n : Nat}
    (hh : hexa = 0x7000) : dispatch rnd c op hexa nnn nn x y n = addByte c x nn := by
  subst hh; rfl

/-- C16: for every register index `x`, bytes `NN` and `MM`, and every state with
`PC + 3 ≤ 0xFFF` whose memory at `PC..PC+3` holds the big-endian words `6xNN` and `7xMM`, two
calls of `step` complete and leave `Vx = (NN + MM) mod 256` and `PC` advanced by exactly 4;
every other register (`VF` included when `x ≠ 0xF`), `I`, `SP`, stack, memory, display, keys
and timers are unchanged.  Here `step` runs `execute`, which switches on `hexa` as modelled from
the specification (the source declares no `hexa`); the last part states the same of the switch
itself, entered after each fetch with the switch variable given as `0x6000`, then `0x7000`. -/
theorem step_load_then_add (rnd1 rnd2 : Nat) (c : Chip8) (x nn mm : Nat)
    (hx : x < 16) (hnn : nn < 256) (hmm : mm < 256) (hpc : c.pc + 3 ≤ 0xFFF)
    (h0 : c.memory c.pc = 0x60 + x) (h1 : c.memory (c.pc + 1) = nn)
    (h2 : c.memory (c.pc + 2) = 0x70 + x) (h3 : c.memory (c.pc + 3) = mm) :
    (∃ c1, step rnd1 c = .ok c1 ∧
      step rnd2 c1 = .ok { c with pc := c.pc + 4, v := setAt c.v x ((nn + mm) % 256) }) ∧
    (∀ op1 nnn1 y1 n1 op2 nnn2 y2 n2,
      ∃ c1, dispatch rnd1 { c with pc := c.pc + 2 } op1 0x6000 nnn1 nn x y1 n1 = .ok c1 ∧
        dispatch rnd2 { c1 with pc := c1.pc + 2 } op2 0x7000 nnn2 mm x y2 n2 =
          .ok { c with pc := c.pc + 4, v := setAt c.v x ((nn + mm) % 256) }) := by
  obtain ⟨⟨a1, a2, a3⟩, _⟩ := decode_6x_7x x hx nn hnn
  obtain ⟨_, ⟨b1, b2, b3⟩⟩ := decode_6x_7x x hx mm hmm
  have e1 : (c.pc + 1) % 65536 = c.pc + 1 := by omega
  have e2 : (c.pc + 2) % 65536 = c.pc + 2 := by omega
  have e3 : (c.pc + 2 + 1) % 65536 = c.pc + 3 := by omega
  have e4 : (c.pc + 2 + 2) % 65536 = c.pc + 4 := by omega
  have hv : setAt (setAt c.v x nn) x ((nn + mm) % 256) = setAt c.v x ((nn + mm) % 256) := by
    funext k
    simp only [setAt_apply]
    split_ifs <;> rfl
  constructor
  · have hop1 : opcodeAt c = ((0x60 + x) <<< 8) ||| nn := by
      simp only [opcodeAt, e1, h0, h1]
    have hs1 : step rnd1 c = .ok { c with pc := c.pc + 2, v := setAt c.v x nn } := by
      rw [step_eq_dispatch rnd1 c (by omega), hop1, a2, a3, dispatch_loadByte a1, e2]
      simp only [loadByte, writeV, hx, if_true]
    refine ⟨_, hs1, ?_⟩
    have hop2 : opcodeAt { c with pc := c.pc + 2, v := setAt c.v x nn } =
        ((0x70 + x) <<< 8) ||| mm := by
      simp only [opcodeAt, e3, h2, h3]
    rw [step_eq_dispatch rnd2 _ (by simp only []; omega), hop2, b2, b3, dispatch_addByte b1]
    simp only [addByte, readV, writeV, hx, if_true, bind, Except.bind, setAt_same, e4, hv]
  · intro op1 nnn1 y1 n1 op2 nnn2 y2 n2
    have hd1 : dispatch rnd1 { c with pc := c.pc + 2 } op1 0x6000 nnn1 nn x y1 n1 =
        .ok { c with pc := c.pc + 2, v := setAt c.v x nn } := by
      rw [dispatch_loadByte rfl]
      simp only [loadByte, writeV, hx, if_true]
    refine ⟨_, hd1, ?_⟩
    rw [dispatch_addByte rfl]
    simp only [addByte, readV, writeV, hx, if_true, bind, Except.bind, setAt_same, hv]

/-- An instance of C16 at the end of memory: `6A05 7AFE` at `PC = 0xFFC` leaves
`VA = (0x05 + 0xFE) mod 256 = 0x03` and `PC = 0x1000`, with `VF` untouched. -/
theorem step_load_then_add_witness :
    ∃ c1 c2, step 0 loadAddState = .ok c1 ∧ step 0 c1 = .ok c2 ∧
      c2.v 0xA = 0x03 ∧ c2.pc = 0x1000 ∧ c2.v 0xF = 0 := by
  obtain ⟨⟨c1, hs1, hs2⟩, _⟩ := step_load_then_add 0 0 loadAddState 0xA 0x05 0xFE
    (by decide) (by decide) (by decide) (by decide) (by decide) (by decide) (by decide)
    (by decide)
  exact ⟨c1, _, hs1, hs2, by decide, by decide, by decide⟩

/-! ## The display is written by clear and draw only -/

theorem keepsDsp_ite (c : Chip8) (p : Prop) [Decidable p] (a b : Except Fault Chip8)
    (ha : p → keepsDsp c a) (hb : ¬ p → keepsDsp c b) : keepsDsp c (if p then a else b) := by
  by_cases h : p
  · rw [if_pos h]; exact ha h
  · rw [if_neg h]; exact hb h

theorem keepsDsp_ok (c : Chip8) : keepsDsp c (.ok c) := by
  intro c' h
  cases h
  rfl

theorem keepsDsp_error (c : Chip8) (e : Fault) : keepsDsp c (.error e) := by
  intro c' h
  cases h

theorem keepsDsp_control (c : Chip8) (x y nn nnn : Nat) (hx : x < 16) (hy : y < 16) :
    keepsDsp c (returnFromSubroutine c) ∧ keepsDsp c (.ok (jumpTo c nnn)) ∧
    keepsDsp c (callSubroutine c nnn) ∧ keepsDsp c (seByte c x nn) ∧
    keepsDsp c (sneByte c x nn) ∧ keepsDsp c (seRegister c x y) ∧
    keepsDsp c (sneReg c x y) ∧ keepsDsp c (.ok (loadI c nnn)) ∧ keepsDsp c (jumpV0 c nnn) ∧
    keepsDsp c (skipKp c x) ∧ keepsDsp c (skipNkp c x) := by
  refine ⟨?_, ?_, ?_, ?_, ?_, ?_, ?_, ?_, ?_, ?_, ?_⟩ <;> intro c' h
  · simp only [returnFromSubroutine, popStack, readStack, bind, Except.bind] at h
    split_ifs at h
    cases h; rfl
  · cases h; rfl
  · simp only [callSubroutine, pushStak, writeStack, bind, Except.bind] at h
    split_ifs at h
    cases h; rfl
  · simp only [seByte, readV, hx, if_true, bind, Except.bind] at h
    split_ifs at h <;> (cases h; rfl)
  · simp only [sneByte, readV, hx, if_true, bind, Except.bind] at h
    split_ifs at h <;> (cases h; rfl)
  · simp only [seRegister, readV, hx, hy, if_true, bind, Except.bind] at h
    split_ifs at h <;> (cases h; rfl)
  · simp only [sneReg, readV, hx, hy, if_true, bind, Except.bind] at h
    split_ifs at h <;> (cases h; rfl)
  · cases h; rfl
  · simp only [jumpV0, readV, Nat.ofNat_pos, if_true, bind, Except.bind] at h
    cases h; rfl
  · by_cases hk : c.v x < 0x10
    · simp only [skipKp, readV, readKey, hx, hk, if_true, bind, Except.bind] at h
      split_ifs at h <;> (cases h; rfl)
    · simp only [skipKp, readV, readKey, hx, hk, if_true, if_false, bind, Except.bind] at h
      cases h
  · by_cases hk : c.v x < 0x10
    · simp only [skipNkp, readV, readKey, hx, hk, if_true, bind, Except.bind] at h
      split_ifs at h <;> (cases h; rfl)
    · simp only [skipNkp, readV, readKey, hx, hk, if_true, if_false, bind, Except.bind] at h
      cases h

theorem keepsDsp_alu (rnd : Nat) (c : Chip8) (x y nn : Nat) (hx : x < 16) (hy : y < 16) :
    keepsDsp c (loadByte c x nn) ∧ keepsDsp c (addByte c x nn) ∧ keepsDsp c (loadReg c x y) ∧
    keepsDsp c (orReg c x y) ∧ keepsDsp c (andReg c x y) ∧ keepsDsp c (xorReg c x y) ∧
    keepsDsp c (addReg c x y) ∧ keepsDsp c (subReg c x y) ∧ keepsDsp c (shiftRight c x) ∧
    keepsDsp c (subnReg c x y) ∧ keepsDsp c (shiftLeft c x) ∧ keepsDsp c (random rnd c x nn) := by
  refine ⟨?_, ?_, ?_, ?_, ?_, ?_, ?_, ?_, ?_, ?_, ?_, ?_⟩ <;> intro c' h <;>
    simp only [loadByte, addByte, loadReg, orReg, andReg, xorReg, addReg, subReg, shiftRight,
      subnReg, shiftLeft, random, readV, writeV, updateCarryFlag_eq, hx, hy, if_true, bind,
      Except.bind] at h <;>
    (cases h; rfl)

theorem keepsDsp_misc (c : Chip8) (x : Nat) (hx : x < 16) :
    keepsDsp c (loadRegDelay c x) ∧ keepsDsp c (loadRegKey c x) ∧ keepsDsp c (loadDt c x) ∧
    keepsDsp c (loadSt c x) ∧ keepsDsp c (addI c x) ∧ keepsDsp c (loadSprite c x) ∧
    keepsDsp c (loadBCD c x) ∧ keepsDsp c (loadRegMem c x) ∧ keepsDsp c (loadMemReg c x) := by
  refine ⟨?_, ?_, ?_, ?_, ?_, ?_, ?_, ?_, ?_⟩ <;> intro c' h
  · simp only [loadRegDelay, writeV, hx, if_true] at h
    cases h; rfl
  · simp only [loadRegKey, writeV, hx, if_true] at h
    split_ifs at h <;> (cases h; rfl)
  · simp only [loadDt, readV, hx, if_true, bind, Except.bind] at h
    cases h; rfl
  · simp only [loadSt, readV, hx, if_true, bind, Except.bind] at h
    cases h; rfl
  · simp only [addI, readV, hx, if_true, bind, Except.bind] at h
    cases h; rfl
  · simp only [loadSprite, readV, hx, if_true, bind, Except.bind] at h
    cases h; rfl
  · by_cases b0 : (c.i + 0) % 65536 < 0x1000
    · by_cases b1 : (c.i + 1) % 65536 < 0x1000
      · by_cases b2 : (c.i + 2) % 65536 < 0x1000
        · simp only [loadBCD, readV, writeMem, hx, b0, b1, b2, if_true, bind, Except.bind] at h
          cases h; rfl
        · simp only [loadBCD, readV, writeMem, hx, b0, b1, b2, if_true, if_false, bind,
            Except.bind] at h
          cases h
      · simp only [loadBCD, readV, writeMem, hx, b0, b1, if_true, if_false, bind,
          Except.bind] at h
        cases h
    · simp only [loadBCD, readV, writeMem, hx, b0, if_true, if_false, bind, Except.bind] at h
      cases h
  · simp only [loadRegMem] at h
    split_ifs at h
    cases h; rfl
  · simp only [loadMemReg] at h
    split_ifs at h
    cases h; rfl

/-- Every branch of the switch other than `00E0` and `Dxyn` leaves the display as it is,
whatever the value of the switch variable. -/
theorem dispatch_keepsDsp (rnd : Nat) (c : Chip8) (op hexa nnn nn x y n : Nat)
    (hx : x < 16) (hy : y < 16) (hE0 : hexa = 0x0000 → op ≠ 0x00E0) (hD : hexa ≠ 0xD000) :
    keepsDsp c (dispatch rnd c op hexa nnn nn x y n) := by
  obtain ⟨k1, k2, k3, k4, k5, k6, k7, k8, k9, k10, k11⟩ := keepsDsp_control c x y nn nnn hx hy
  obtain ⟨a1, a2, a3, a4, a5, a6, a7, a8, a9, a10, a11, a12⟩ := keepsDsp_alu rnd c x y nn hx hy
  obtain ⟨m1, m2, m3, m4, m5, m6, m7, m8, m9⟩ := keepsDsp_misc c x hx
  have g0 := keepsDsp_ok c
  unfold dispatch
  repeat' (with_reducible refine keepsDsp_ite _ _ _ _ (fun _ => ?_) (fun _ => ?_))
  all_goals with_reducible first
    | exact g0
    | exact k1 | exact k2 | exact k3 | exact k4 | exact k5 | exact k6 | exact k7 | exact k8
    | exact k9 | exact k10 | exact k11
    | exact a1 | exact a2 | exact a3 | exact a4 | exact a5 | exact a6 | exact a7 | exact a8
    | exact a9 | exact a10 | exact a11 | exact a12
    | exact m1 | exact m2 | exact m3 | exact m4 | exact m5 | exact m6 | exact m7 | exact m8
    | exact m9
    | exact keepsDsp_error _ _
    | exact absurd ‹op = 0x00E0› (hE0 ‹hexa = 0x0000›)
    | exact absurd ‹hexa = 0xD000› hD

theorem dispatch_clear {rnd : Nat} {c : Chip8} {op hexa nnn nn x y n : Nat}
    (h : op = 0x00E0) (hh : hexa = 0x0000) :
    dispatch rnd c op hexa nnn nn x y n = .ok (clearDisplay c) := by
  subst h hh; rfl

/-- C17: for every state and every opcode other than `00E0` and `Dxyn` on which `execute`
completes, the display after `execute` is the display before; and `00E0` completes, sets all
2048 display cells to 0 and changes nothing else.  `execute` switches on `hexa` as modelled from
the spec (the source declares no `hexa`); the last part states the same of the switch for every
value of that variable: unless the branch taken is the one of `00E0` or the one of `Dxyn`, the
display is left as it is. -/
theorem display_written_by_clear_and_draw (rnd : Nat) (c : Chip8) :
    (∀ op c', op ≠ 0x00E0 → op &&& 0xF000 ≠ 0xD000 → execute rnd c op = .ok c' →
      c'.dsp = c.dsp) ∧
    (∃ c', execute rnd c 0x00E0 = .ok c' ∧ (∀ k, k < 0x800 → c'.dsp k = 0) ∧
      c' = { c with dsp := c'.dsp }) ∧
    (∀ op h nnn nn x y n c', x < 16 → y < 16 → (h = 0x0000 → op ≠ 0x00E0) → h ≠ 0xD000 →
      dispatch rnd c op h nnn nn x y n = .ok c' → c'.dsp = c.dsp) := by
  refine ⟨?_, ?_, ?_⟩
  · intro op c' hE0 hD hex
    rw [execute_eq_dispatch] at hex
    exact dispatch_keepsDsp rnd c op _ _ _ _ _ _ (decode_x_lt _) (decode_y_lt _)
      (fun _ => hE0) hD c' hex
  · refine ⟨clearDisplay c, ?_, ?_, rfl⟩
    · rw [execute_eq_dispatch]
      exact dispatch_clear rfl (by decide)
    · intro k hk
      simp only [clearDisplay, hk, if_true]
  · intro op h nnn nn x y n c' hx hy hE0 hD hs
    exact dispatch_keepsDsp rnd c op h nnn nn x y n hx hy hE0 hD c' hs

/-- An instance of C17: on `collideState`, whose display cell `(0, 0)` is set, the opcode `6A05`
completes and leaves the display as it was. -/
theorem display_written_by_clear_and_draw_witness :
    ∃ c', execute 0 collideState 0x6A05 = .ok c' ∧ c'.dsp = collideState.dsp ∧ c'.dsp 0 = 1 := by
  have h : execute 0 collideState 0x6A05 =
      .ok { collideState with v := setAt collideState.v 0xA 0x05 } := rfl
  have hd := (display_written_by_clear_and_draw 0 collideState).1 0x6A05 _ (by decide)
    (by decide) h
  exact ⟨_, h, hd, rfl⟩

/-! ## Display cells are 0 or 1 -/

theorem pixelBit_binary (b ix : Nat) : pixelBit b ix = 0 ∨ pixelBit b ix = 1 := by
  have h : pixelBit b ix = (b >>> (7 - ix)) % 2 := Nat.and_one_is_mod _
  omega

theorem xor_binary (a d : Nat) (ha : a = 0 ∨ a = 1) (hd : d = 0 ∨ d = 1) :
    a ^^^ d = 0 ∨ a ^^^ d = 1 := by
  rcases ha with ha | ha <;> rcases hd with hd | hd <;> subst ha hd <;> decide

/-- The instruction `draw`, whatever the sprite bytes, coordinates and count, keeps every
display cell in `{0, 1}`. -/
theorem draw_binary (c c' : Chip8) (x y n : Nat) (hb : DspBinary c)
    (h : draw c x y n = .ok c') : DspBinary c' := by
  by_cases hx : x < 16
  swap
  · simp only [draw, readV, hx, if_false, bind, Except.bind] at h
    cases h
  by_cases hy : y < 16
  swap
  · simp only [draw, readV, hx, hy, if_true, if_false, bind, Except.bind] at h
    cases h
  have hr := (draw_ok_iff c x y n hx hy).mp ⟨c', h⟩
  obtain ⟨D, f', hrun, hD, _⟩ := draw_linear c x y n hx hy hr
  rw [h] at hrun
  injection hrun with hrun
  intro k hk
  rw [hrun, updateCarryFlag_eq]
  show D k = 0 ∨ D k = 1
  rw [hD]
  split_ifs
  · exact xor_binary _ _ (hb k hk) (pixelBit_binary _ _)
  · exact hb k hk

/-- The switch of `execute` keeps every display cell in `{0, 1}`, whatever the value of the
switch variable and whatever branch it selects. -/
theorem dispatch_binary (rnd : Nat) (c c' : Chip8) (op h nnn nn x y n : Nat)
    (hx : x < 16) (hy : y < 16) (hb : DspBinary c)
    (hs : dispatch rnd c op h nnn nn x y n = .ok c') : DspBinary c' := by
  by_cases h0 : h = 0x0000 ∧ op = 0x00E0
  · rw [dispatch_clear h0.2 h0.1] at hs
    cases hs
    intro k hk
    left
    simp only [clearDisplay, hk, if_true]
  · by_cases hD : h = 0xD000
    · rw [dispatch_draw hD] at hs
      exact draw_binary _ _ _ _ _ hb hs
    · have hk := dispatch_keepsDsp rnd c op h nnn nn x y n hx hy
        (fun hz he => h0 ⟨hz, he⟩) hD c' hs
      intro k hk2
      rw [hk]
      exact hb k hk2

/-- C19: every one of the 2048 display cells is 0 or 1 in the state returned by `newChip8`, and
this is preserved by every completed `step` (in particular by `draw`, whatever the sprite bytes,
coordinates and count) and by `decrementTimer`.  `step` runs `execute`, which switches on `hexa`
as modelled from the spec (the source declares no `hexa`); the last part shows that the
preservation does not depend on that reading: the switch preserves the predicate for every value
of its variable. -/
theorem dspBinary_invariant :
    (∀ b, DspBinary (newChip8 b)) ∧
    (∀ rnd c c', DspBinary c → step rnd c = .ok c' → DspBinary c') ∧
    (∀ c c' x y n, DspBinary c → draw c x y n = .ok c' → DspBinary c') ∧
    (∀ c, DspBinary c → DspBinary (decrementTimer c)) ∧
    (∀ rnd c c' op h nnn nn x y n, x < 16 → y < 16 → DspBinary c →
      dispatch rnd c op h nnn nn x y n = .ok c' → DspBinary c') := by
  refine ⟨?_, ?_, ?_, ?_, ?_⟩
  · intro b k _
    exact Or.inl rfl
  · intro rnd c c' hb hs
    by_cases hpc : c.pc + 1 < 0x1000
    swap
    · rw [step_fetch_out_of_range rnd c hpc] at hs
      cases hs
    rw [step_eq_dispatch rnd c hpc] at hs
    have hb1 : DspBinary { c with pc := (c.pc + 2) % 65536 } := hb
    exact dispatch_binary rnd _ c' _ _ _ _ _ _ _ (decode_x_lt _) (decode_y_lt _) hb1 hs
  · intro c c' x y n hb h
    exact draw_binary c c' x y n hb h
  · intro c hb k hk
    have hd : (decrementTimer c).dsp = c.dsp := by
      simp only [decrementTimer]
      split_ifs <;> rfl
    rw [hd]
    exact hb k hk
  · intro rnd c c' op h nnn nn x y n hx hy hb hs
    exact dispatch_binary rnd c c' op h nnn nn x y n hx hy hb hs

/-- An instance of C19: the blank display of `drawStepState` is binary, its step `D012`
completes, and the display it leaves is binary, with the cell `(62, 31)` set. -/
theorem dspBinary_invariant_witness :
    DspBinary drawStepState ∧
    ∃ c', step 0 drawStepState = .ok c' ∧ DspBinary c' ∧ c'.dsp (31 * 64 + 62) = 1 := by
  have hb : DspBinary drawStepState := fun _ _ => Or.inl rfl
  obtain ⟨c', hs⟩ : ∃ c', step 0 drawStepState = .ok c' := ⟨_, rfl⟩
  have hc : c'.dsp (31 * 64 + 62) = 1 := by
    have h2 : step 0 drawStepState = .ok c' := hs
    injection h2 with h2
    subst h2
    decide
  exact ⟨hb, c', hs, dspBinary_invariant.2.1 0 drawStepState c' hb hs, hc⟩

/-! ## The switch has one fatal report, whatever its variable -/

theorem fixedReport_ite (p : Prop) [Decidable p] (a b : Except Fault Chip8)
    (ha : p → fixedReport a) (hb : ¬ p → fixedReport b) : fixedReport (if p then a else b) := by
  by_cases h : p
  · rw [if_pos h]; exact ha h
  · rw [if_neg h]; exact hb h

theorem fixedReport_ok (c : Chip8) : fixedReport (.ok c) := by
  intro m h
  cases h

theorem fixedReport_panic : fixedReport (.error .indexOutOfRange) := by
  intro m h
  cases h

theorem fixedReport_fatal : fixedReport (.error (.fatal "Not implemented 0NNN")) := by
  intro m h
  cases h
  rfl

theorem fixedReport_control (c : Chip8) (x y nn nnn : Nat) (hx : x < 16) (hy : y < 16) :
    fixedReport (returnFromSubroutine c) ∧ fixedReport (callSubroutine c nnn) ∧
    fixedReport (seByte c x nn) ∧ fixedReport (sneByte c x nn) ∧
    fixedReport (seRegister c x y) ∧ fixedReport (sneReg c x y) ∧
    fixedReport (jumpV0 c nnn) ∧ fixedReport (skipKp c x) ∧ fixedReport (skipNkp c x) := by
  refine ⟨?_, ?_, ?_, ?_, ?_, ?_, ?_, ?_, ?_⟩ <;> intro m h
  · simp only [returnFromSubroutine, popStack, readStack, bind, Except.bind] at h
    split_ifs at h
    cases h
  · simp only [callSubroutine, pushStak, writeStack, bind, Except.bind] at h
    split_ifs at h
    cases h
  · simp only [seByte, readV, hx, if_true, bind, Except.bind] at h
    split_ifs at h
  · simp only [sneByte, readV, hx, if_true, bind, Except.bind] at h
    split_ifs at h
  · simp only [seRegister, readV, hx, hy, if_true, bind, Except.bind] at h
    split_ifs at h
  · simp only [sneReg, readV, hx, hy, if_true, bind, Except.bind] at h
    split_ifs at h
  · simp only [jumpV0, readV, Nat.ofNat_pos, if_true, bind, Except.bind] at h
    cases h
  · by_cases hk : c.v x < 0x10
    · simp only [skipKp, readV, readKey, hx, hk, if_true, bind, Except.bind] at h
      split_ifs at h
    · simp only [skipKp, readV, readKey, hx, hk, if_true, if_false, bind, Except.bind] at h
      cases h
  · by_cases hk : c.v x < 0x10
    · simp only [skipNkp, readV, readKey, hx, hk, if_true, bind, Except.bind] at h
      split_ifs at h
    · simp only [skipNkp, readV, readKey, hx, hk, if_true, if_false, bind, Except.bind] at h
      cases h

theorem fixedReport_alu (rnd : Nat) (c : Chip8) (x y nn : Nat) (hx : x < 16) (hy : y < 16) :
    fixedReport (loadByte c x nn) ∧ fixedReport (addByte c x nn) ∧ fixedReport (loadReg c x y) ∧
    fixedReport (orReg c x y) ∧ fixedReport (andReg c x y) ∧ fixedReport (xorReg c x y) ∧
    fixedReport (addReg c x y) ∧ fixedReport (subReg c x y) ∧ fixedReport (shiftRight c x) ∧
    fixedReport (subnReg c x y) ∧ fixedReport (shiftLeft c x) ∧
    fixedReport (random rnd c x nn) := by
  refine ⟨?_, ?_, ?_, ?_, ?_, ?_, ?_, ?_, ?_, ?_, ?_, ?_⟩ <;> intro m h <;>
    simp only [loadByte, addByte, loadReg, orReg, andReg, xorReg, addReg, subReg, shiftRight,
      subnReg, shiftLeft, random, readV, writeV, updateCarryFlag_eq, hx, hy, if_true, bind,
      Except.bind] at h <;>
    cases h

theorem fixedReport_misc (c : Chip8) (x : Nat) (hx : x < 16) :
    fixedReport (loadRegDelay c x) ∧ fixedReport (loadRegKey c x) ∧ fixedReport (loadDt c x) ∧
    fixedReport (loadSt c x) ∧ fixedReport (addI c x) ∧ fixedReport (loadSprite c x) ∧
    fixedReport (loadBCD c x) ∧ fixedReport (loadRegMem c x) ∧ fixedReport (loadMemReg c x) := by
  refine ⟨?_, ?_, ?_, ?_, ?_, ?_, ?_, ?_, ?_⟩ <;> intro m h
  · simp only [loadRegDelay, writeV, hx, if_true] at h
    cases h
  · simp only [loadRegKey, writeV, hx, if_true] at h
    split_ifs at h
  · simp only [loadDt, readV, hx, if_true, bind, Except.bind] at h
    cases h
  · simp only [loadSt, readV, hx, if_true, bind, Except.bind] at h
    cases h
  · simp only [addI, readV, hx, if_true, bind, Except.bind] at h
    cases h
  · simp only [loadSprite, readV, hx, if_true, bind, Except.bind] at h
    cases h
  · by_cases b0 : (c.i + 0) % 65536 < 0x1000
    · by_cases b1 : (c.i + 1) % 65536 < 0x1000
      · by_cases b2 : (c.i + 2) % 65536 < 0x1000
        · simp only [loadBCD, readV, writeMem, hx, b0, b1, b2, if_true, bind, Except.bind] at h
          cases h
        · simp only [loadBCD, readV, writeMem, hx, b0, b1, b2, if_true, if_false, bind,
            Except.bind] at h
          cases h
      · simp only [loadBCD, readV, writeMem, hx, b0, b1, if_true, if_false, bind,
          Except.bind] at h
        cases h
    · simp only [loadBCD, readV, writeMem, hx, b0, if_true, if_false, bind, Except.bind] at h
      cases h
  · simp only [loadRegMem] at h
    split_ifs at h
    cases h
  · simp only [loadMemReg] at h
    split_ifs at h
    cases h

theorem fixedReport_draw (c : Chip8) (x y n : Nat) (hx : x < 16) (hy : y < 16) :
    fixedReport (draw c x y n) := by
  by_cases hr : spriteInRange c (c.v x) (c.v y) n
  · obtain ⟨c', hc'⟩ := (draw_ok_iff c x y n hx hy).mpr hr
    rw [hc']
    exact fixedReport_ok c'
  · rw [draw_out_of_range c x y n hx hy hr]
    exact fixedReport_panic

/-- Whatever the value of the switch variable and whatever branch it selects, a failure that the
switch of `execute` reports through `log.Fatal` is the fixed message. -/
theorem dispatch_fixedReport (rnd : Nat) (c : Chip8) (op h nnn nn x y n : Nat)
    (hx : x < 16) (hy : y < 16) : fixedReport (dispatch rnd c op h nnn nn x y n) := by
  obtain ⟨k1, k2, k3, k4, k5, k6, k7, k8, k9⟩ := fixedReport_control c x y nn nnn hx hy
  obtain ⟨a1, a2, a3, a4, a5, a6, a7, a8, a9, a10, a11, a12⟩ :=
    fixedReport_alu rnd c x y nn hx hy
  obtain ⟨m1, m2, m3, m4, m5, m6, m7, m8, m9⟩ := fixedReport_misc c x hx
  have d1 := fixedReport_draw c x y n hx hy
  unfold dispatch
  repeat' (with_reducible refine fixedReport_ite _ _ _ (fun _ => ?_) (fun _ => ?_))
  all_goals with_reducible first
    | exact fixedReport_ok _
    | exact fixedReport_fatal
    | exact k1 | exact k2 | exact k3 | exact k4 | exact k5 | exact k6 | exact k7 | exact k8
    | exact k9
    | exact a1 | exact a2 | exact a3 | exact a4 | exact a5 | exact a6 | exact a7 | exact a8
    | exact a9 | exact a10 | exact a11 | exact a12
    | exact m1 | exact m2 | exact m3 | exact m4 | exact m5 | exact m6 | exact m7 | exact m8
    | exact m9
    | exact d1

/-! ## The report of the fatal path -/

/-- C18, refuted as stated: the opcode `0123` executed at `PC = 0x202` and the opcode `0456`
executed at `PC = 0x302` give one and the same failure, the fixed message
`Not implemented 0NNN`; the report carries neither the opcode value nor the program counter.
The same holds of the switch itself entered with the switch variable equal to `0x0000` (the
source declares no `hexa`; `execute` reads it as modelled from the specification). -/
theorem fatal_report_counterexample :
    execute 0 { zeroChip8 with pc := 0x202 } 0x0123 = .error (.fatal "Not implemented 0NNN") ∧
    execute 0 { zeroChip8 with pc := 0x302 } 0x0456 = .error (.fatal "Not implemented 0NNN") ∧
    dispatch 0 { zeroChip8 with pc := 0x202 } 0x0123 0x0000 0x123 0x23 1 2 3 =
      .error (.fatal "Not implemented 0NNN") ∧
    dispatch 0 { zeroChip8 with pc := 0x302 } 0x0456 0x0000 0x456 0x56 4 5 6 =
      .error (.fatal "Not implemented 0NNN") :=
  ⟨rfl, rfl, rfl, rfl⟩

/-- C18, amended: for every opcode with top nibble 0 other than `00E0` and `00EE`, and every
state (so every `PC`), `execute` takes the fatal path, and the reported failure is the fixed
message `Not implemented 0NNN`: it is the same for any two such opcodes and any two states.
Here `execute` switches on `hexa` as modelled from the specification (the source declares no
`hexa`); the last two parts do not depend on that reading: whatever value the switch variable
has, in the `0x0000` family the switch reports the fixed message, and every report the switch
makes through `log.Fatal`, for any opcode, state and operands, is that same message. -/
theorem fatal_report_fixed (rnd rnd' : Nat) (c c' : Chip8) (op op' : Nat)
    (h0 : op < 0x1000) (hE0 : op ≠ 0x00E0) (hEE : op ≠ 0x00EE)
    (h0' : op' < 0x1000) (hE0' : op' ≠ 0x00E0) (hEE' : op' ≠ 0x00EE) :
    execute rnd c op = .error (.fatal "Not implemented 0NNN") ∧
    execute rnd c op = execute rnd' c' op' ∧
    (∀ h nnn nn x y n, h = 0x0000 →
      dispatch rnd c op h nnn nn x y n = .error (.fatal "Not implemented 0NNN")) ∧
    (∀ r s o h nnn nn x y n m, x < 16 → y < 16 →
      dispatch r s o h nnn nn x y n = .error (.fatal m) → m = "Not implemented 0NNN") := by
  have key : ∀ (r : Nat) (s : Chip8) (o : Nat), o < 0x1000 → o ≠ 0x00E0 → o ≠ 0x00EE →
      execute r s o = .error (.fatal "Not implemented 0NNN") := by
    intro r s o a1 a2 a3
    have hz : o &&& 0xF000 = 0x0000 := and_F000_of_lt o a1
    simp only [execute, hexa, dispatch, hz, if_true, a2, a3, if_false]
  rw [key rnd c op h0 hE0 hEE, key rnd' c' op' h0' hE0' hEE']
  refine ⟨rfl, rfl, ?_, ?_⟩
  · intro h nnn nn x y n hz
    simp only [dispatch, hz, if_true, hE0, hEE, if_false]
  · intro r s o h nnn nn x y n m hx hy hm
    exact dispatch_fixedReport r s o h nnn nn x y n hx hy m hm

/-- An instance of the amended C18: `0123` at `PC = 0x202` and `0FFF` at `PC = 0x302` report
the same failure. -/
theorem fatal_report_fixed_witness :
    execute 0 { zeroChip8 with pc := 0x202 } 0x0123 =
      execute 1 { zeroChip8 with pc := 0x302 } 0x0FFF :=
  (fatal_report_fixed 0 1 { zeroChip8 with pc := 0x202 } { zeroChip8 with pc := 0x302 }
    0x0123 0x0FFF (by decide) (by decide) (by decide) (by decide) (by decide) (by decide)).2.1

/-! ## Timer cadence of the run loop -/

theorem runIteration_focused (s : RunState) :
    (runIteration true s).cycle = (if s.cycle + 1 > 8 then 0 else s.cycle + 1) ∧
    stepCalls (runIteration true s).log = stepCalls s.log + 1 ∧
    timerCalls (runIteration true s).log =
      timerCalls s.log + (if s.cycle + 1 > 8 then 1 else 0) := by
  have hp : perVblankCycle = 8 := rfl
  by_cases h : s.cycle + 1 > 8
  · simp [runIteration, hp, h, stepCalls, timerCalls, List.count_append, List.count_cons]
  · simp [runIteration, hp, h, stepCalls, timerCalls, List.count_append, List.count_cons]

/-- C20, the code at the claim: with the emulator focused, `perVblankCycle` is 8, but after `n`
iterations of the loop of `Run` (`n` calls of `step`) `decrementTimer` has been called `n / 9`
times: not at all during the first eight steps, for the first time after the ninth, and then
once per nine calls of `step`, after the steps `9, 18, 27, ..`. -/
theorem run_timer_every_ninth_step :
    perVblankCycle = 8 ∧
    (∀ n, (runLoop true n runStart).cycle = n % 9 ∧
      stepCalls (runLoop true n runStart).log = n ∧
      timerCalls (runLoop true n runStart).log = n / 9) ∧
    timerCalls (runLoop true 8 runStart).log = 0 ∧
    timerCalls (runLoop true 9 runStart).log = 1 ∧
    timerCalls (runLoop true 16 runStart).log = 1 ∧
    timerCalls (runLoop true 18 runStart).log = 2 := by
  have hall : ∀ n, (runLoop true n runStart).cycle = n % 9 ∧
      stepCalls (runLoop true n runStart).log = n ∧
      timerCalls (runLoop true n runStart).log = n / 9 := by
    intro n
    induction n with
    | zero => exact ⟨rfl, rfl, rfl⟩
    | succ n ih =>
      obtain ⟨h1, h2, h3⟩ := ih
      obtain ⟨g1, g2, g3⟩ := runIteration_focused (runLoop true n runStart)
      refine ⟨?_, ?_, ?_⟩
      · show (runIteration true (runLoop true n runStart)).cycle = _
        rw [g1, h1]
        split_ifs <;> omega
      · show stepCalls (runIteration true (runLoop true n runStart)).log = _
        rw [g2, h2]
      · show timerCalls (runIteration true (runLoop true n runStart)).log = _
        rw [g3, h3, h1]
        split_ifs <;> omega
  exact ⟨rfl, hall, (hall 8).2.2, (hall 9).2.2, (hall 16).2.2, (hall 18).2.2⟩

end Emulator
